import Mathlib

/-!
Verification of the MCQ parsing and validation engine of `main.py`.

The embedding models Python strings as lists of Unicode codepoints
(`PyStr := List Nat`).  Every parsing function of `main.py` is translated
into an executable Lean definition over `PyStr`; the regular expressions of
the source are translated into explicit character-by-character matchers with
the same backtracking behaviour on the patterns that appear in the source.
Python exceptions are modelled with `Except PyExn`; a `try/except` block of
the source becomes an explicit `match` on the `Except` value.
-/

set_option maxRecDepth 10000

/-- Python strings as lists of codepoints. -/
abbrev PyStr := List Nat

/-- Codepoints of a Lean string literal, used to write concrete inputs. -/
def chars (s : String) : PyStr := s.data.map Char.toNat

/-- ASCII whitespace recognized by `str.strip()` and by the regex class
`\s` (space, tab, newline, carriage return, vertical tab, form feed). -/
def isPySpace (n : Nat) : Bool :=
  n == 32 || n == 9 || n == 10 || n == 13 || n == 11 || n == 12

/-- ASCII decimal digit, the `\d` class and `str.isdigit` on ASCII input. -/
def isDigitN (n : Nat) : Bool := 48 ≤ n && n ≤ 57

/-- `str.lower()` on one ASCII codepoint. -/
def lowerNat (n : Nat) : Nat := if 65 ≤ n ∧ n ≤ 90 then n + 32 else n

/-- `str.upper()` on one ASCII codepoint. -/
def upperNat (n : Nat) : Nat := if 97 ≤ n ∧ n ≤ 122 then n - 32 else n

/-- `str.lower()`. -/
def lowerStr (s : PyStr) : PyStr := s.map lowerNat

/-- `str.upper()`. -/
def upperStr (s : PyStr) : PyStr := s.map upperNat

/-- `str.strip()`: remove leading and trailing whitespace. -/
def pyStrip (s : PyStr) : PyStr :=
  ((s.dropWhile isPySpace).reverse.dropWhile isPySpace).reverse

/-- `str.strip(')')`: remove leading and trailing `)` characters. -/
def stripParen (s : PyStr) : PyStr :=
  ((s.dropWhile (· == 41)).reverse.dropWhile (· == 41)).reverse

/-- `str.split(sep)` for a one-character separator (keeps empty pieces). -/
def splitOnChar (sep : Nat) (s : PyStr) : List PyStr :=
  s.foldr
    (fun c acc =>
      if c == sep then [] :: acc
      else
        match acc with
        | h :: t => (c :: h) :: t
        | [] => [[c]])
    [[]]

/-- `str.split(sep, 1)` producing the two pieces, or `none` when the
separator does not occur (in which case tuple unpacking in the source
raises `ValueError`). -/
def splitFirst (sep : Nat) : PyStr → Option (PyStr × PyStr)
  | [] => none
  | c :: rest =>
    if c == sep then some ([], rest)
    else (splitFirst sep rest).map (fun p => (c :: p.1, p.2))

/-- Substring containment, Python's `needle in haystack`. -/
def occursIn (p : PyStr) : PyStr → Bool
  | [] => p.isEmpty
  | s@(_ :: rest) => p.isPrefixOf s || occursIn p rest

/-- `re.search(r'\d+\.', s)` succeeds iff some digit is immediately
followed by a period. -/
def hasDigitDot : PyStr → Bool
  | a :: b :: rest => (isDigitN a && b == 46) || hasDigitDot (b :: rest)
  | _ => false

/-- Numeric value of an ASCII digit string, Python's `int()` on a string
that passed `isdigit`. -/
def natOfDigits (s : PyStr) : Nat := s.foldl (fun a d => a * 10 + (d - 48)) 0

/-- Python `str.isdigit` (ASCII): nonempty and all digits. -/
def isDigits (s : PyStr) : Bool := !s.isEmpty && s.all isDigitN

/-- A string is stripped: nonempty with non-whitespace first and last
characters (so `pyStrip` leaves it unchanged). -/
def strippedStr (s : PyStr) : Bool :=
  match s with
  | [] => false
  | a :: _ => !isPySpace a && !isPySpace (s.getLastD 0)

/-- The stripped, nonempty lines of a text:
`[line.strip() for line in text.split('\n') if line.strip()]`. -/
def strippedLines (t : PyStr) : List PyStr :=
  ((splitOnChar 10 t).map pyStrip).filter (· ≠ [])

/-- Python values appearing in parse results.  Strings are `jstr`; the
JSON grammar can also produce numbers, booleans, lists, objects and
`None` (`jnull`).  JSON numbers are modelled as integers. -/
inductive JVal where
  | jnull : JVal
  | jbool : Bool → JVal
  | jnum : Int → JVal
  | jstr : PyStr → JVal
  | jarr : List JVal → JVal
  | jobj : List (PyStr × JVal) → JVal

/-- Python truthiness of a `JVal` (`if not x`). -/
def jTruthy : JVal → Bool
  | .jnull => false
  | .jbool b => b
  | .jnum n => n != 0
  | .jstr s => !s.isEmpty
  | .jarr xs => !xs.isEmpty
  | .jobj kvs => !kvs.isEmpty

/-- The 4-tuple `(question, options, correct_option_index, explanation)`
returned by every parser of `main.py`; each component may be `None`. -/
structure PResult where
  q : Option JVal
  opts : Option (List JVal)
  idx : Option Int
  expl : Option JVal

/-- The failure tuple `(None, None, None, None)`. -/
def pfail : PResult := ⟨none, none, none, none⟩

/-- A raised Python exception (the source catches all of them alike). -/
inductive PyExn where
  | exn : PyExn

/-! ### Multi-line labeled grammar (`parse_multi_line_mcq`) -/

/-- Consume a case-insensitive literal (given in lowercase) from the front
of a string, returning the remainder. -/
def dropCI : PyStr → PyStr → Option PyStr
  | [], s => some s
  | _ :: _, [] => none
  | p :: ps, c :: cs => if lowerNat c == p then dropCI ps cs else none

/-- Match the tail `\s*:\s*(.+)$` of the question/explanation patterns:
skip whitespace, require a colon, and capture the stripped remainder
(the regex fails when nothing at all follows the colon). -/
def colonTail (r : PyStr) : Option PyStr :=
  match r.dropWhile isPySpace with
  | 58 :: rest => if rest.isEmpty then none else some (pyStrip rest)
  | _ => none

/-- Consume the optional `(?:\s+\d+)?` group of the question pattern:
one or more whitespace characters followed by one or more digits. -/
def numTail (r : PyStr) : Option PyStr :=
  match r with
  | c :: rest =>
    if isPySpace c then
      let afterWs := rest.dropWhile isPySpace
      if (afterWs.takeWhile isDigitN).isEmpty then none
      else some (afterWs.dropWhile isDigitN)
    else none
  | [] => none

/-- `^Question(?:\s+\d+)?\s*:\s*(.+)$` (IGNORECASE), capture stripped. -/
def matchQuestionLine (l : PyStr) : Option PyStr :=
  match dropCI (chars "question") l with
  | none => none
  | some r =>
    match numTail r with
    | some r1 => colonTail r1
    | none => colonTail r

/-- Letter class `[a-dA-D]` of the option and correct-answer patterns. -/
def inRangeAD (c : Nat) : Bool := (97 ≤ c && c ≤ 100) || (65 ≤ c && c ≤ 68)

/-- `^([a-dA-D])\)\s*(.+)$`: lowercased letter and stripped option text. -/
def matchOptionLine (l : PyStr) : Option (Nat × PyStr) :=
  match l with
  | c :: d :: rest =>
    if d = 41 ∧ inRangeAD c then
      if rest.isEmpty then none else some (lowerNat c, pyStrip rest)
    else none
  | _ => none

/-- `^Correct Answer\s*:\s*([a-dA-D])\)?` (IGNORECASE), lowercased letter. -/
def matchCALine (l : PyStr) : Option Nat :=
  match dropCI (chars "correct answer") l with
  | none => none
  | some r =>
    match r.dropWhile isPySpace with
    | 58 :: r2 =>
      match r2.dropWhile isPySpace with
      | c :: _ => if inRangeAD c then some (lowerNat c) else none
      | [] => none
    | _ => none

/-- `^Explanation\s*:\s*(.+)$` (IGNORECASE), capture stripped. -/
def matchExplLine (l : PyStr) : Option PyStr :=
  match dropCI (chars "explanation") l with
  | none => none
  | some r => colonTail r

/-- Letter-to-index mapping `ord(letter) - ord('a')` as an optional
index. -/
def caIdx (c : Nat) : Option Int := some ((c : Int) - 97)

/-- Accumulator of the line loop of `parse_multi_line_mcq`. -/
structure MLState where
  question : PyStr
  options : List PyStr
  idx : Option Int
  expl : PyStr

/-- One iteration of the line loop: the four patterns are tried in order
and the first match wins (`continue`). -/
def mlStep (st : MLState) (l : PyStr) : MLState :=
  match matchQuestionLine l with
  | some q => { st with question := q }
  | none =>
    match matchOptionLine l with
    | some p => { st with options := st.options ++ [p.2] }
    | none =>
      match matchCALine l with
      | some c => { st with idx := some ((c : Int) - 97) }
      | none =>
        match matchExplLine l with
        | some e => { st with expl := e }
        | none => st

/-- The validation block at the end of `parse_multi_line_mcq`: missing
question, fewer than two options, or a missing/too-large index reject. -/
def mlValidate (st : MLState) : PResult :=
  if st.question = [] then pfail
  else if st.options.length < 2 then pfail
  else
    match st.idx with
    | none => pfail
    | some i =>
      if i ≥ (st.options.length : Int) then pfail
      else ⟨some (.jstr st.question), some (st.options.map .jstr),
            some i, some (.jstr st.expl)⟩

/-- `parse_multi_line_mcq`. -/
def parse_multi_line_mcq (t : PyStr) : PResult :=
  mlValidate ((strippedLines (pyStrip t)).foldl mlStep ⟨[], [], none, []⟩)

/-! ### Single-line delimited grammar (`parse_single_line_mcq`) -/

/-- Python dict assignment `d[k] = v`: overwrite in place or append. -/
def pyDictSet (d : List (PyStr × PyStr)) (k v : PyStr) : List (PyStr × PyStr) :=
  if d.any (fun kv => kv.1 == k) then
    d.map (fun kv => if kv.1 == k then (k, v) else kv)
  else d ++ [(k, v)]

/-- Python `d.get(k)`. -/
def dGet (d : List (PyStr × PyStr)) (k : PyStr) : Option PyStr :=
  (d.find? (fun kv => kv.1 == k)).map (·.2)

/-- The dict-building loop: `key, value = part.split(':', 1)` raises
`ValueError` when a part has no colon. -/
def buildDict : List PyStr → Except PyExn (List (PyStr × PyStr)) → Except PyExn (List (PyStr × PyStr))
  | _, .error e => .error e
  | [], .ok d => .ok d
  | part :: parts, .ok d =>
    match splitFirst 58 part with
    | none => .error .exn
    | some kv => buildDict parts (.ok (pyDictSet d (lowerStr (pyStrip kv.1)) (pyStrip kv.2)))

/-- Truthiness of an optional string (`None` and `''` are falsy). -/
def optTruthy : Option PyStr → Bool
  | none => false
  | some v => !v.isEmpty

/-- Python `a or b` on optional strings. -/
def pyOrOpt (a b : Option PyStr) : Option PyStr := if optTruthy a then a else b

/-- The part of `parse_single_line_mcq` after the dict is built (cannot
raise). -/
def singleFinish (data : List (PyStr × PyStr)) : PResult :=
  let question := pyOrOpt (dGet data (chars "q")) (dGet data (chars "question"))
  let options :=
    ([dGet data (chars "a"), dGet data (chars "b"),
      dGet data (chars "c"), dGet data (chars "d")]).filterMap
      (fun o => match o with
        | some v => if v.isEmpty then none else some v
        | none => none)
  let answer := dGet data (chars "answer")
  let explanation := dGet data (chars "explanation")
  if !optTruthy question || options.isEmpty || !optTruthy answer then pfail
  else
    let letter := stripParen (lowerStr (answer.getD []))
    match letter with
    | [c] =>
      if 97 ≤ c ∧ c ≤ 100 then
        ⟨some (.jstr (question.getD [])), some (options.map .jstr),
         some ((c : Int) - 97), explanation.map .jstr⟩
      else pfail
    | _ => pfail

/-- Body of `parse_single_line_mcq` inside its `try`. -/
def singleBody (t : PyStr) : Except PyExn PResult :=
  let parts := ((splitOnChar 124 (pyStrip t)).map pyStrip).filter (· ≠ [])
  match buildDict parts (.ok []) with
  | .error e => .error e
  | .ok data => .ok (singleFinish data)

/-- `parse_single_line_mcq`: the `except` clause returns the failure
tuple. -/
def parse_single_line_mcq (t : PyStr) : PResult :=
  match singleBody t with
  | .ok r => r
  | .error _ => pfail

/-! ### Numbered-options grammar (`parse_numbered_options_mcq`) -/

/-- `re.match(r'^\d+\.\s', line)`, returning the stripped text after the
match (`re.split(r'^\d+\.\s', line, maxsplit=1)[1].strip()`). -/
def matchNumOpt (l : PyStr) : Option PyStr :=
  let ds := l.takeWhile isDigitN
  if ds.isEmpty then none
  else
    match l.dropWhile isDigitN with
    | 46 :: w :: r2 => if isPySpace w then some (pyStrip r2) else none
    | _ => none

/-- `line.split(':', 1)[1]` under a guard that guarantees a colon. -/
def afterFirstColon (l : PyStr) : PyStr :=
  match splitFirst 58 l with
  | some kv => kv.2
  | none => []

/-- `line.lower().startswith(pre)` for a lowercase ASCII literal. -/
def lowerStarts (l : PyStr) (pre : PyStr) : Bool :=
  pre.isPrefixOf (lowerStr l)

/-- One iteration of the `parse_numbered_options_mcq` line loop. -/
def nStep (st : MLState) (l : PyStr) : MLState :=
  if lowerStarts l (chars "question:") then
    { st with question := pyStrip (afterFirstColon l) }
  else if (matchNumOpt l).isSome then
    { st with options := st.options ++ [(matchNumOpt l).getD []] }
  else if lowerStarts l (chars "answer:") then
    let answer := pyStrip (afterFirstColon l)
    if isDigits answer then { st with idx := some ((natOfDigits answer : Int) - 1) }
    else st
  else if lowerStarts l (chars "explanation:") then
    { st with expl := pyStrip (afterFirstColon l) }
  else st

/-- The validation block at the end of `parse_numbered_options_mcq`:
missing question, empty option list, or missing index reject; the index
value itself is not range-checked. -/
def nValidate (st : MLState) : PResult :=
  if st.question = [] then pfail
  else if st.options.isEmpty then pfail
  else
    match st.idx with
    | none => pfail
    | some i => ⟨some (.jstr st.question), some (st.options.map .jstr),
                 some i, some (.jstr st.expl)⟩

/-- `parse_numbered_options_mcq` (its `try` body cannot raise). -/
def parse_numbered_options_mcq (t : PyStr) : PResult :=
  nValidate ((strippedLines t).foldl nStep ⟨[], [], none, []⟩)

/-! ### Structured/JSON grammar (`parse_json_mcq`)

`json.loads` is modelled by a recursive-descent parser over codepoints.
JSON numbers are modelled as integers (fractions and exponents are
rejected); this only affects inputs routed to the JSON grammar. -/

/-- JSON whitespace. -/
def isJsonWs (n : Nat) : Bool := n == 32 || n == 9 || n == 10 || n == 13

/-- Decode a JSON string body after the opening quote: returns the
decoded text and the remainder after the closing quote. -/
def jString : Nat → PyStr → Option (PyStr × PyStr)
  | 0, _ => none
  | _, [] => none
  | fuel + 1, c :: rest =>
    if c == 34 then some ([], rest)
    else if c == 92 then
      match rest with
      | [] => none
      | e :: rest2 =>
        let decoded := if e == 110 then 10 else if e == 116 then 9
          else if e == 114 then 13 else e
        (jString fuel rest2).map (fun p => (decoded :: p.1, p.2))
    else (jString fuel rest).map (fun p => (c :: p.1, p.2))

mutual

/-- Parse one JSON value (after leading whitespace was skipped). -/
def jValue : Nat → PyStr → Option (JVal × PyStr)
  | 0, _ => none
  | _, [] => none
  | fuel + 1, s@(c :: rest) =>
    if c == 34 then (jString fuel rest).map (fun p => (.jstr p.1, p.2))
    else if c == 123 then jObject fuel (rest.dropWhile isJsonWs) []
    else if c == 91 then jArray fuel (rest.dropWhile isJsonWs) []
    else if (chars "true").isPrefixOf s then some (.jbool true, s.drop 4)
    else if (chars "false").isPrefixOf s then some (.jbool false, s.drop 5)
    else if (chars "null").isPrefixOf s then some (.jnull, s.drop 4)
    else if c == 45 then
      let ds := rest.takeWhile isDigitN
      if ds.isEmpty then none
      else some (.jnum (-(natOfDigits ds : Int)), rest.dropWhile isDigitN)
    else if isDigitN c then
      let ds := s.takeWhile isDigitN
      some (.jnum (natOfDigits ds : Int), s.dropWhile isDigitN)
    else none

/-- Parse the members of a JSON object after `{`, accumulating pairs with
Python-dict overwrite semantics. -/
def jObject : Nat → PyStr → List (PyStr × JVal) → Option (JVal × PyStr)
  | 0, _, _ => none
  | _, [], _ => none
  | fuel + 1, c :: rest, acc =>
    if c == 125 then some (.jobj acc, rest)
    else if c == 34 then
      match jString fuel rest with
      | none => none
      | some (k, r1) =>
        match r1.dropWhile isJsonWs with
        | 58 :: r2 =>
          match jValue fuel (r2.dropWhile isJsonWs) with
          | none => none
          | some (v, r3) =>
            let acc2 :=
              if acc.any (fun kv => kv.1 == k) then
                acc.map (fun kv => if kv.1 == k then (k, v) else kv)
              else acc ++ [(k, v)]
            match r3.dropWhile isJsonWs with
            | 44 :: r4 => jObject fuel (r4.dropWhile isJsonWs) acc2
            | 125 :: r4 => some (.jobj acc2, r4)
            | _ => none
        | _ => none
    else none

/-- Parse the elements of a JSON array after `[`. -/
def jArray : Nat → PyStr → List JVal → Option (JVal × PyStr)
  | 0, _, _ => none
  | _, [], _ => none
  | fuel + 1, s@(c :: _), acc =>
    if c == 93 then some (.jarr acc, s.drop 1)
    else
      match jValue fuel s with
      | none => none
      | some (v, r1) =>
        match r1.dropWhile isJsonWs with
        | 44 :: r2 => jArray fuel (r2.dropWhile isJsonWs) (acc ++ [v])
        | 93 :: r2 => some (.jarr (acc ++ [v]), r2)
        | _ => none

end

/-- `json.loads`: parse a complete document or raise. -/
def jsonLoads (t : PyStr) : Except PyExn JVal :=
  match jValue (t.length + 1) (t.dropWhile isJsonWs) with
  | some (v, rest) => if (rest.dropWhile isJsonWs).isEmpty then .ok v else .error .exn
  | none => .error .exn

/-- Python `data.get(k)` on a parsed JSON object. -/
def jFind (kvs : List (PyStr × JVal)) (k : PyStr) : Option JVal :=
  (kvs.find? (fun kv => kv.1 == k)).map (·.2)

/-- The part of `parse_json_mcq` after `json.loads` succeeded with an
object.  `.values()` on a non-dict and `.upper()` on a non-string raise;
`ord()` on a string whose length is not one raises. -/
def jsonFinish (kvs : List (PyStr × JVal)) : Except PyExn PResult :=
  let question := (jFind kvs (chars "question")).getD .jnull
  match (jFind kvs (chars "options")).getD (.jobj []) with
  | .jobj okvs =>
    let options := okvs.map (·.2)
    match (jFind kvs (chars "answer")).getD .jnull with
    | .jstr a =>
      let answerKey := upperStr a
      let explanation := (jFind kvs (chars "explanation")).getD (.jstr [])
      if !jTruthy question || options.isEmpty || answerKey.isEmpty then .ok pfail
      else
        match answerKey with
        | [c] => .ok ⟨some question, some options, some ((c : Int) - 65), some explanation⟩
        | _ => .error .exn
    | _ => .error .exn
  | _ => .error .exn

/-- Body of `parse_json_mcq` inside its `try` (`data.get` on a non-dict
raises `AttributeError`). -/
def jsonBody (t : PyStr) : Except PyExn PResult :=
  match jsonLoads t with
  | .error e => .error e
  | .ok (.jobj kvs) => jsonFinish kvs
  | .ok _ => .error .exn

/-- `parse_json_mcq`: both `except` clauses return the failure tuple. -/
def parse_json_mcq (t : PyStr) : PResult :=
  match jsonBody t with
  | .ok r => r
  | .error _ => pfail

/-! ### Inline comma options grammar (`parse_inline_options_mcq`) -/

/-- Backtracking tail of `\s*(.+)` when the remainder is all whitespace:
the regex engine gives back whitespace so that `.+` can still match; the
group then starts at the last position holding a non-newline character. -/
def backtrackWs : PyStr → Option PyStr
  | [] => none
  | c :: rest =>
    match backtrackWs rest with
    | some g => some g
    | none => if c ≠ 10 then some ((c :: rest).takeWhile (· ≠ 10)) else none

/-- Capture of `\s*(.+)` starting at a given remainder (`.` does not match
newline, `\s` does). -/
def captureRest (r : PyStr) : Option PyStr :=
  let rest := r.dropWhile isPySpace
  if rest.isEmpty then backtrackWs r
  else some (rest.takeWhile (· ≠ 10))

/-- `re.search(pat + r'\s*(.+)', text, re.IGNORECASE)` for a literal
keyword `pat`: try every start position from the left. -/
def searchCapture (pat : PyStr) : PyStr → Option PyStr
  | [] => none
  | s@(_ :: rest) =>
    match (dropCI pat s).bind captureRest with
    | some g => some g
    | none => searchCapture pat rest

/-- Python `list.index`: position of the first equal element. -/
def pyIndexOf : List PyStr → PyStr → Option Nat
  | [], _ => none
  | x :: xs, a => if x = a then some 0 else (pyIndexOf xs a).map (· + 1)

/-- `parse_inline_options_mcq` (`options.index(answer)` raising
`ValueError` is caught by the inner `try/except` and yields failure). -/
def parse_inline_options_mcq (t : PyStr) : PResult :=
  match searchCapture (chars "question:") t,
        searchCapture (chars "options:") t,
        searchCapture (chars "answer:") t with
  | some qg, some og, some ag =>
    let question := pyStrip qg
    let options := ((splitOnChar 44 og).map pyStrip).filter (· ≠ [])
    let answer := pyStrip ag
    let explanation :=
      match searchCapture (chars "explanation:") t with
      | some eg => pyStrip eg
      | none => []
    if options.isEmpty then pfail
    else
      match pyIndexOf options answer with
      | some i => ⟨some (.jstr question), some (options.map .jstr),
                   some (i : Int), some (.jstr explanation)⟩
      | none => pfail
  | _, _, _ => pfail

/-! ### Format dispatch (`parse_mcq`) and the length gate -/

/-- Structured/object-notation signal: stripped text starts with `{` and
ends with `}`. -/
def jsonShaped (s : PyStr) : Bool := s.head? == some 123 && s.getLast? == some 125

/-- Delimited single-line signal: contains `|` together with `Q:` or
`Question:` (case-sensitive substring tests). -/
def singleShaped (s : PyStr) : Bool :=
  s.contains 124 && (occursIn (chars "Q:") s || occursIn (chars "Question:") s)

/-- The grammar selected by the dispatch chain of `parse_mcq`. -/
inductive Grammar where
  | gjson : Grammar
  | gsingle : Grammar
  | gnumbered : Grammar
  | ginline : Grammar
  | gmulti : Grammar
deriving DecidableEq

/-- The classifier: the `if` chain at the top of `parse_mcq`, applied to
the stripped text, first match wins. -/
def classify (t : PyStr) : Grammar :=
  let s := pyStrip t
  if jsonShaped s then .gjson
  else if singleShaped s then .gsingle
  else if hasDigitDot s then .gnumbered
  else if occursIn (chars "Options:") s then .ginline
  else .gmulti

/-- `parse_mcq`: strip, classify, dispatch. -/
def parse_mcq (t : PyStr) : PResult :=
  let s := pyStrip t
  match classify t with
  | .gjson => parse_json_mcq s
  | .gsingle => parse_single_line_mcq s
  | .gnumbered => parse_numbered_options_mcq s
  | .ginline => parse_inline_options_mcq s
  | .gmulti => parse_multi_line_mcq s

/-- Outcome of the length checks of `handle_message`. -/
inductive Gate where
  | accept : Gate
  | stemTooLong : Gate
  | optionTooLong : Gate
  | explTooLong : Gate
deriving DecidableEq

/-- The length checks of `handle_message` on a successfully parsed
question: stem over 300, then any option over 100, then a nonempty
explanation over 200; otherwise the poll is sent. -/
def lengthGate (q : PyStr) (opts : List PyStr) (ex : Option PyStr) : Gate :=
  if q.length > 300 then .stemTooLong
  else if opts.any (fun o => o.length > 100) then .optionTooLong
  else if (match ex with
           | some e => !e.isEmpty && e.length > 200
           | none => false) then .explTooLong
  else .accept

/-! ### Derived observations and concrete inputs used by the claims -/

/-- Option text registered by a line of the multi-line grammar: the
declared letter is discarded, only the text is kept. -/
def mlOptText (l : PyStr) : Option PyStr := (matchOptionLine l).map (fun p => p.2)

/-- The stripped nonempty lines seen by `parse_multi_line_mcq`. -/
def mlLines (t : PyStr) : List PyStr := strippedLines (pyStrip t)

/-- Option texts of a multi-line text in physical order of appearance. -/
def mlOptionTexts (t : PyStr) : List PyStr := (mlLines t).filterMap mlOptText

/-- The lowercased letters of all `Correct Answer:` lines, in order. -/
def caLetters (t : PyStr) : List Nat := (mlLines t).filterMap matchCALine

/-- Option lines `a) t0`, `b) t1`, ... with consecutive labels. -/
def optLinesML : Nat → List PyStr → List PyStr
  | _, [] => []
  | k, t :: ts => ((97 + k) :: 41 :: 32 :: t) :: optLinesML (k + 1) ts

/-- Join lines with newlines. -/
def joinNl : List PyStr → PyStr
  | [] => []
  | [l] => l
  | l :: ls => l ++ 10 :: joinNl ls

/-- The lines of one well-formed multi-line labeled question block. -/
def mlBlockLines (stem : PyStr) (opts : List PyStr) (letter : Nat) : List PyStr :=
  (chars "Question: " ++ stem) :: (optLinesML 0 opts ++ [chars "Correct Answer: " ++ [letter]])

/-- A well-formed multi-line labeled submission. -/
def assembleML (stem : PyStr) (opts : List PyStr) (letter : Nat) : PyStr :=
  joinNl (mlBlockLines stem opts letter)

/-- Two well-formed multi-line labeled questions back-to-back. -/
def assembleML2 (s1 : PyStr) (o1 : List PyStr) (l1 : Nat)
    (s2 : PyStr) (o2 : List PyStr) (l2 : Nat) : PyStr :=
  joinNl (mlBlockLines s1 o1 l1 ++ mlBlockLines s2 o2 l2)

/-- Numbered-options input whose `Answer: 5` exceeds its two options. -/
def cexNumbered : PyStr := chars "Question: q\n1. one\n2. two\nAnswer: 5"

/-- Multi-line input with five options labeled a..e and answer letter e. -/
def cexLetterE : PyStr :=
  chars "Question: q\na) A1\nb) B1\nc) C1\nd) D1\ne) E1\nCorrect Answer: e"

/-- Two valid multi-line questions back-to-back. -/
def cexTwoQ : PyStr :=
  chars "Question: one?\na) r\nb) s\nCorrect Answer: a\nQuestion: two?\na) t\nb) u\nCorrect Answer: b"

/-- Multi-line input with eleven recognized options. -/
def cexEleven : PyStr :=
  chars "Question: q\na) o\na) o\na) o\na) o\na) o\na) o\na) o\na) o\na) o\na) o\na) o\nCorrect Answer: a"

/-- Labeled multi-line input whose stem contains the digit-dot text 3.14. -/
def cexPi : PyStr := chars "Question: What is 3.14?\na) pi\nb) tau\nCorrect Answer: a"

/-- Multi-line input whose option letters appear out of alphabetical order. -/
def cexOutOfOrder : PyStr := chars "Question: q\nb) X\na) Y\nCorrect Answer: a"

/-- Malformed structured/object-notation input. -/
def cexBadJson : PyStr := chars "\x7b]"

/-- Delimited input whose second field has no colon (raises on unpacking). -/
def cexBadSingle : PyStr := chars "Q: a | b"

/-! ### Helper lemmas about the string primitives -/

theorem isPySpace_false_of_ge (n : Nat) (h : 33 ≤ n) : isPySpace n = false := by
  simp only [isPySpace, Bool.or_eq_false_iff, beq_eq_false_iff_ne, ne_eq]
  omega

theorem getLastD_irrel (l : PyStr) (h : l ≠ []) (d d' : Nat) :
    l.getLastD d = l.getLastD d' := by
  induction l with
  | nil => exact absurd rfl h
  | cons a t ih =>
    cases t with
    | nil => rfl
    | cons b t' => simpa [List.getLastD_cons] using ih (by simp)

theorem strippedStr_facts (s : PyStr) (h : strippedStr s = true) :
    s ≠ [] ∧ isPySpace (s.headD 0) = false ∧ isPySpace (s.getLastD 0) = false := by
  cases s with
  | nil => simp [strippedStr] at h
  | cons a t =>
    simp only [strippedStr, Bool.and_eq_true, Bool.not_eq_true'] at h
    exact ⟨by simp, h.1, h.2⟩

theorem pyStrip_eq_self (s : PyStr) (h : strippedStr s = true) : pyStrip s = s := by
  obtain ⟨hne, hh, hl⟩ := strippedStr_facts s h
  cases s with
  | nil => rfl
  | cons a t =>
    simp only [List.headD_cons] at hh
    have h1 : (a :: t).dropWhile isPySpace = a :: t := by
      simp [List.dropWhile_cons, hh]
    have h2 : (a :: t).reverse.dropWhile isPySpace = (a :: t).reverse := by
      have hrev : (a :: t).reverse ≠ [] := by simp
      cases hr : (a :: t).reverse with
      | nil => exact absurd hr hrev
      | cons b u =>
        have hb : (a :: t).getLast? = some b := by
          rw [← List.head?_reverse, hr]; rfl
        have hb2 : (a :: t).getLastD 0 = b := by
          rw [List.getLastD_eq_getLast?, hb]; rfl
        have hlb : isPySpace b = false := hb2 ▸ hl
        simp [List.dropWhile_cons, hlb]
    unfold pyStrip
    rw [h1, h2, List.reverse_reverse]

theorem pyStrip_cons_ws (c : Nat) (s : PyStr) (h : isPySpace c = true) :
    pyStrip (c :: s) = pyStrip s := by
  unfold pyStrip
  rw [List.dropWhile_cons, h]
  simp

theorem splitOnChar_cons (sep c : Nat) (s : PyStr) :
    splitOnChar sep (c :: s) =
      (if c == sep then [] :: splitOnChar sep s
       else match splitOnChar sep s with
         | h :: t => (c :: h) :: t
         | [] => [[c]]) := rfl

theorem splitOnChar_ne_nil (sep : Nat) (s : PyStr) : splitOnChar sep s ≠ [] := by
  induction s with
  | nil => simp [splitOnChar]
  | cons c t ih =>
    rw [splitOnChar_cons]
    by_cases h : c == sep
    · simp [h]
    · simp only [h, Bool.false_eq_true, if_false]
      cases hs : splitOnChar sep t with
      | nil => simp
      | cons a u => simp

theorem splitOnChar_cons_sep (sep : Nat) (s : PyStr) :
    splitOnChar sep (sep :: s) = [] :: splitOnChar sep s := by
  rw [splitOnChar_cons]; simp

theorem splitOnChar_cons_ne (sep c : Nat) (s : PyStr) (h : c ≠ sep) :
    ∃ a u, splitOnChar sep s = a :: u ∧ splitOnChar sep (c :: s) = (c :: a) :: u := by
  cases hs : splitOnChar sep s with
  | nil => exact absurd hs (splitOnChar_ne_nil sep s)
  | cons a u =>
    refine ⟨a, u, rfl, ?_⟩
    rw [splitOnChar_cons, hs]
    simp [h]

theorem splitOnChar_append_sep (sep : Nat) (A B : PyStr) (h : sep ∉ A) :
    splitOnChar sep (A ++ sep :: B) = A :: splitOnChar sep B := by
  induction A with
  | nil => simpa using splitOnChar_cons_sep sep B
  | cons c A' ih =>
    have hc : c ≠ sep := fun hcc => h (hcc ▸ List.mem_cons_self c A')
    have hA' : sep ∉ A' := fun hm => h (List.mem_cons_of_mem c hm)
    obtain ⟨a, u, h1, h2⟩ := splitOnChar_cons_ne sep c (A' ++ sep :: B) hc
    rw [ih hA'] at h1
    cases h1
    simpa using h2

theorem splitOnChar_no_sep (sep : Nat) (A : PyStr) (h : sep ∉ A) :
    splitOnChar sep A = [A] := by
  induction A with
  | nil => rfl
  | cons c A' ih =>
    have hc : c ≠ sep := fun hcc => h (hcc ▸ List.mem_cons_self c A')
    have hA' : sep ∉ A' := fun hm => h (List.mem_cons_of_mem c hm)
    obtain ⟨a, u, h1, h2⟩ := splitOnChar_cons_ne sep c A' hc
    rw [ih hA'] at h1
    cases h1
    simpa using h2

/-! ### Line joining -/

theorem joinNl_cons (l : PyStr) (ls : List PyStr) (h : ls ≠ []) :
    joinNl (l :: ls) = l ++ 10 :: joinNl ls := by
  cases ls with
  | nil => exact absurd rfl h
  | cons a u => rfl

theorem splitOnChar_joinNl (L : List PyStr) (hL : L ≠ []) (h : ∀ l ∈ L, 10 ∉ l) :
    splitOnChar 10 (joinNl L) = L := by
  induction L with
  | nil => exact absurd rfl hL
  | cons l ls ih =>
    cases ls with
    | nil =>
      show splitOnChar 10 l = [l]
      exact splitOnChar_no_sep 10 l (h l (by simp))
    | cons a u =>
      rw [joinNl_cons l (a :: u) (by simp)]
      rw [splitOnChar_append_sep 10 l (joinNl (a :: u)) (h l (by simp))]
      rw [ih (by simp) (fun x hx => h x (List.mem_cons_of_mem l hx))]

theorem strippedLines_joinNl (L : List PyStr) (hL : L ≠ [])
    (hnl : ∀ l ∈ L, 10 ∉ l) (hs : ∀ l ∈ L, strippedStr l = true) :
    strippedLines (joinNl L) = L := by
  unfold strippedLines
  rw [splitOnChar_joinNl L hL hnl]
  have hmap : L.map pyStrip = L := by
    have : L.map pyStrip = L.map id :=
      List.map_congr_left (fun l hl => pyStrip_eq_self l (hs l hl))
    rw [this, List.map_id]
  rw [hmap]
  rw [List.filter_eq_self.mpr]
  intro a ha
  have := strippedStr_facts a (hs a ha)
  simpa using this.1

/-! ### Shape facts about the line matchers -/

theorem dropCI_shape1 (p : Nat) (ps l r : PyStr) (h : dropCI (p :: ps) l = some r) :
    ∃ c cs, l = c :: cs ∧ lowerNat c = p := by
  cases l with
  | nil => simp [dropCI] at h
  | cons c cs =>
    refine ⟨c, cs, rfl, ?_⟩
    by_cases hc : lowerNat c = p
    · exact hc
    · simp [dropCI, hc] at h

theorem dropCI_shape2 (p1 p2 : Nat) (ps l r : PyStr)
    (h : dropCI (p1 :: p2 :: ps) l = some r) :
    ∃ c1 c2 cs, l = c1 :: c2 :: cs ∧ lowerNat c1 = p1 ∧ lowerNat c2 = p2 := by
  cases l with
  | nil => simp [dropCI] at h
  | cons c1 cs1 =>
    by_cases hc : lowerNat c1 = p1
    · cases cs1 with
      | nil => simp [dropCI, hc] at h
      | cons c2 cs2 =>
        by_cases hc2 : lowerNat c2 = p2
        · exact ⟨c1, c2, cs2, rfl, hc, hc2⟩
        · simp [dropCI, hc, hc2] at h
    · simp [dropCI, hc] at h

theorem chars_question_eq : chars "question" = 113 :: chars "uestion" := by decide

theorem chars_ca_eq : chars "correct answer" = 99 :: 111 :: chars "rrect answer" := by decide

theorem chars_expl_eq : chars "explanation" = 101 :: chars "xplanation" := by decide

theorem mq_fact (l q : PyStr) (h : matchQuestionLine l = some q) :
    lowerNat (l.headD 0) = 113 := by
  unfold matchQuestionLine at h
  cases hd : dropCI (chars "question") l with
  | none => rw [hd] at h; simp at h
  | some r =>
    rw [chars_question_eq] at hd
    obtain ⟨c, cs, hl, hc⟩ := dropCI_shape1 _ _ _ _ hd
    rw [hl]; simpa using hc

theorem mo_fact (l : PyStr) (p : Nat × PyStr) (h : matchOptionLine l = some p) :
    l.getD 1 0 = 41 ∧ inRangeAD (l.headD 0) = true := by
  cases l with
  | nil => simp [matchOptionLine] at h
  | cons c cs =>
    cases cs with
    | nil => simp [matchOptionLine] at h
    | cons d rest =>
      by_cases hcond : d = 41 ∧ inRangeAD c = true
      · exact ⟨by simpa using hcond.1, by simpa using hcond.2⟩
      · simp only [matchOptionLine, hcond, if_false] at h
        exact absurd h (by simp)

theorem mca_fact (l : PyStr) (c : Nat) (h : matchCALine l = some c) :
    lowerNat (l.headD 0) = 99 ∧ lowerNat (l.getD 1 0) = 111 := by
  unfold matchCALine at h
  cases hd : dropCI (chars "correct answer") l with
  | none => rw [hd] at h; simp at h
  | some r =>
    rw [chars_ca_eq] at hd
    obtain ⟨c1, c2, cs, hl, hc1, hc2⟩ := dropCI_shape2 _ _ _ _ _ hd
    rw [hl]
    exact ⟨by simpa using hc1, by simpa using hc2⟩

theorem mex_fact (l e : PyStr) (h : matchExplLine l = some e) :
    lowerNat (l.headD 0) = 101 := by
  unfold matchExplLine at h
  cases hd : dropCI (chars "explanation") l with
  | none => rw [hd] at h; simp at h
  | some r =>
    rw [chars_expl_eq] at hd
    obtain ⟨c, cs, hl, hc⟩ := dropCI_shape1 _ _ _ _ hd
    rw [hl]; simpa using hc

theorem lowerNat_of_inRangeAD (c : Nat) (h : inRangeAD c = true) :
    97 ≤ lowerNat c ∧ lowerNat c ≤ 100 := by
  simp only [inRangeAD, Bool.or_eq_true, Bool.and_eq_true, decide_eq_true_eq] at h
  unfold lowerNat
  split
  · omega
  · omega

theorem lowerNat_41 : lowerNat 41 = 41 := by decide

/-! ### Pairwise disjointness of the four line patterns -/

theorem mo_none_of_mq (l q : PyStr) (h : matchQuestionLine l = some q) :
    matchOptionLine l = none := by
  cases hmo : matchOptionLine l with
  | none => rfl
  | some p =>
    have h1 := mq_fact l q h
    have h2 := (mo_fact l p hmo).2
    have h3 := lowerNat_of_inRangeAD _ h2
    omega

theorem mca_none_of_mq (l q : PyStr) (h : matchQuestionLine l = some q) :
    matchCALine l = none := by
  cases hm : matchCALine l with
  | none => rfl
  | some c =>
    have h1 := mq_fact l q h
    have h2 := (mca_fact l c hm).1
    omega

theorem mex_none_of_mq (l q : PyStr) (h : matchQuestionLine l = some q) :
    matchExplLine l = none := by
  cases hm : matchExplLine l with
  | none => rfl
  | some e =>
    have h1 := mq_fact l q h
    have h2 := mex_fact l e hm
    omega

theorem mca_none_of_mo (l : PyStr) (p : Nat × PyStr) (h : matchOptionLine l = some p) :
    matchCALine l = none := by
  cases hm : matchCALine l with
  | none => rfl
  | some c =>
    have h1 := (mo_fact l p h).1
    have h2 := (mca_fact l c hm).2
    rw [h1, lowerNat_41] at h2
    omega

theorem mex_none_of_mo (l : PyStr) (p : Nat × PyStr) (h : matchOptionLine l = some p) :
    matchExplLine l = none := by
  cases hm : matchExplLine l with
  | none => rfl
  | some e =>
    have h1 := (mo_fact l p h).2
    have h2 := mex_fact l e hm
    have h3 := lowerNat_of_inRangeAD _ h1
    omega

theorem mex_none_of_mca (l : PyStr) (c : Nat) (h : matchCALine l = some c) :
    matchExplLine l = none := by
  cases hm : matchExplLine l with
  | none => rfl
  | some e =>
    have h1 := (mca_fact l c h).1
    have h2 := mex_fact l e hm
    omega

/-! ### Characterization of the multi-line line loop -/

theorem mlFold_spec (ls : List PyStr) (st : MLState) :
    ((ls.foldl mlStep st).question = (ls.filterMap matchQuestionLine).getLastD st.question)
  ∧ ((ls.foldl mlStep st).options = st.options ++ ls.filterMap mlOptText)
  ∧ ((ls.foldl mlStep st).idx = ((ls.filterMap matchCALine).map caIdx).getLastD st.idx)
  ∧ ((ls.foldl mlStep st).expl = (ls.filterMap matchExplLine).getLastD st.expl) := by
  induction ls generalizing st with
  | nil => simp
  | cons l ls ih =>
    rw [List.foldl_cons]
    cases hq : matchQuestionLine l with
    | some q =>
      have hmo := mo_none_of_mq l q hq
      have hmca := mca_none_of_mq l q hq
      have hmex := mex_none_of_mq l q hq
      have hmo' : mlOptText l = none := by simp [mlOptText, hmo]
      have hstep : mlStep st l = { st with question := q } := by
        simp [mlStep, hq]
      rw [hstep]
      obtain ⟨i1, i2, i3, i4⟩ := ih { st with question := q }
      refine ⟨?_, ?_, ?_, ?_⟩
      · rw [i1, List.filterMap_cons_some hq, List.getLastD_cons]
      · rw [i2, List.filterMap_cons_none hmo']
      · rw [i3, List.filterMap_cons_none hmca]
      · rw [i4, List.filterMap_cons_none hmex]
    | none =>
      cases hmo : matchOptionLine l with
      | some p =>
        have hmca := mca_none_of_mo l p hmo
        have hmex := mex_none_of_mo l p hmo
        have hmo' : mlOptText l = some p.2 := by simp [mlOptText, hmo]
        have hstep : mlStep st l = { st with options := st.options ++ [p.2] } := by
          simp [mlStep, hq, hmo]
        rw [hstep]
        obtain ⟨i1, i2, i3, i4⟩ := ih { st with options := st.options ++ [p.2] }
        refine ⟨?_, ?_, ?_, ?_⟩
        · rw [i1, List.filterMap_cons_none hq]
        · rw [i2, List.filterMap_cons_some hmo']
          simp
        · rw [i3, List.filterMap_cons_none hmca]
        · rw [i4, List.filterMap_cons_none hmex]
      | none =>
        have hmo' : mlOptText l = none := by simp [mlOptText, hmo]
        cases hmca : matchCALine l with
        | some c =>
          have hmex := mex_none_of_mca l c hmca
          have hstep : mlStep st l = { st with idx := some ((c : Int) - 97) } := by
            simp [mlStep, hq, hmo, hmca]
          rw [hstep]
          obtain ⟨i1, i2, i3, i4⟩ := ih { st with idx := some ((c : Int) - 97) }
          refine ⟨?_, ?_, ?_, ?_⟩
          · rw [i1, List.filterMap_cons_none hq]
          · rw [i2, List.filterMap_cons_none hmo']
          · rw [i3, List.filterMap_cons_some hmca, List.map_cons, List.getLastD_cons]
            rfl
          · rw [i4, List.filterMap_cons_none hmex]
        | none =>
          cases hmex : matchExplLine l with
          | some e =>
            have hstep : mlStep st l = { st with expl := e } := by
              simp [mlStep, hq, hmo, hmca, hmex]
            rw [hstep]
            obtain ⟨i1, i2, i3, i4⟩ := ih { st with expl := e }
            refine ⟨?_, ?_, ?_, ?_⟩
            · rw [i1, List.filterMap_cons_none hq]
            · rw [i2, List.filterMap_cons_none hmo']
            · rw [i3, List.filterMap_cons_none hmca]
            · rw [i4, List.filterMap_cons_some hmex, List.getLastD_cons]
          | none =>
            have hstep : mlStep st l = st := by
              simp [mlStep, hq, hmo, hmca, hmex]
            rw [hstep]
            obtain ⟨i1, i2, i3, i4⟩ := ih st
            refine ⟨?_, ?_, ?_, ?_⟩
            · rw [i1, List.filterMap_cons_none hq]
            · rw [i2, List.filterMap_cons_none hmo']
            · rw [i3, List.filterMap_cons_none hmca]
            · rw [i4, List.filterMap_cons_none hmex]

/-! ### Values of the matchers on constructed lines -/

theorem getLastD_append_right (A s : PyStr) (d : Nat) (h : s ≠ []) :
    (A ++ s).getLastD d = s.getLastD d := by
  rw [List.getLastD_eq_getLast?, List.getLastD_eq_getLast?, List.getLast?_append]
  cases hs : s.getLast? with
  | none => rw [List.getLast?_eq_none_iff] at hs; exact absurd hs h
  | some x => rfl

theorem chars_qline_eq :
    chars "Question: " = [81, 117, 101, 115, 116, 105, 111, 110, 58, 32] := by decide

theorem chars_caline_eq :
    chars "Correct Answer: " =
      [67, 111, 114, 114, 101, 99, 116, 32, 65, 110, 115, 119, 101, 114, 58, 32] := by
  decide

theorem chars_question_full :
    chars "question" = [113, 117, 101, 115, 116, 105, 111, 110] := by decide

theorem chars_ca_full :
    chars "correct answer" =
      [99, 111, 114, 114, 101, 99, 116, 32, 97, 110, 115, 119, 101, 114] := by decide

theorem chars_expl_full :
    chars "explanation" = [101, 120, 112, 108, 97, 110, 97, 116, 105, 111, 110] := by
  decide

theorem mq_on_qline (s : PyStr) :
    matchQuestionLine (chars "Question: " ++ s) = some (pyStrip s) := by
  rw [matchQuestionLine, chars_question_full, chars_qline_eq]
  norm_num [dropCI, lowerNat, numTail, isPySpace, colonTail, List.dropWhile]
  simp only [(by decide :
    (58 == 32 || 58 == 9 || 58 == 10 || 58 == 13 || 58 == 11 || 58 == 12) = false)]
  rw [pyStrip_cons_ws 32 s (by decide)]
  simp

theorem mo_on_optline (k : Nat) (t : PyStr) (hk : k ≤ 3) :
    matchOptionLine ((97 + k) :: 41 :: 32 :: t) = some (97 + k, pyStrip t) := by
  have h1 : inRangeAD (97 + k) = true := by simp [inRangeAD]; omega
  have h2 : lowerNat (97 + k) = 97 + k := by simp [lowerNat]; omega
  simp [matchOptionLine, h1, h2, pyStrip_cons_ws 32 t (by decide)]

theorem mq_on_optline (k : Nat) (t : PyStr) (hk : k ≤ 3) :
    matchQuestionLine ((97 + k) :: 41 :: 32 :: t) = none := by
  have h2 : lowerNat (97 + k) = 97 + k := by simp [lowerNat]; omega
  have h3 : (lowerNat (97 + k) == 113) = false := by
    simp [h2]; omega
  rw [matchQuestionLine, chars_question_eq]
  simp [dropCI, h3]

theorem mca_on_optline (k : Nat) (t : PyStr) (_hk : k ≤ 3) :
    matchCALine ((97 + k) :: 41 :: 32 :: t) = none := by
  rw [matchCALine, chars_ca_eq]
  have h41 : (lowerNat 41 == 111) = false := by decide
  simp [dropCI, h41]

theorem mex_on_optline (k : Nat) (t : PyStr) (hk : k ≤ 3) :
    matchExplLine ((97 + k) :: 41 :: 32 :: t) = none := by
  have h2 : lowerNat (97 + k) = 97 + k := by simp [lowerNat]; omega
  have h3 : (lowerNat (97 + k) == 101) = false := by simp [h2]; omega
  rw [matchExplLine, chars_expl_eq]
  simp [dropCI, h3]

theorem mq_on_caline (letter : Nat) :
    matchQuestionLine (chars "Correct Answer: " ++ [letter]) = none := by
  rw [chars_caline_eq, matchQuestionLine, chars_question_eq]
  simp [dropCI, lowerNat]

theorem mo_on_caline (letter : Nat) :
    matchOptionLine (chars "Correct Answer: " ++ [letter]) = none := by
  rw [chars_caline_eq]
  simp [matchOptionLine]

theorem mex_on_caline (letter : Nat) :
    matchExplLine (chars "Correct Answer: " ++ [letter]) = none := by
  rw [chars_caline_eq, matchExplLine, chars_expl_eq]
  simp [dropCI, lowerNat]

theorem mca_on_caline (letter : Nat) (h : 97 ≤ letter ∧ letter ≤ 100) :
    matchCALine (chars "Correct Answer: " ++ [letter]) = some letter := by
  obtain ⟨h1, h2⟩ := h
  interval_cases letter <;> decide

/-! ### Structure of assembled multi-line submissions -/

theorem strippedStr_of_facts (s : PyStr) (hne : s ≠ [])
    (h1 : isPySpace (s.headD 0) = false) (h2 : isPySpace (s.getLastD 0) = false) :
    strippedStr s = true := by
  cases s with
  | nil => exact absurd rfl hne
  | cons a t =>
    simp only [List.headD_cons] at h1
    rw [List.getLastD_eq_getLast?] at h2
    simp [strippedStr, h1, h2]

theorem headD_append_left (A B : PyStr) (d : Nat) (hA : A ≠ []) :
    (A ++ B).headD d = A.headD d := by
  cases A with
  | nil => exact absurd rfl hA
  | cons a t => rfl

theorem head?_eq_headD (s : PyStr) (h : s ≠ []) : s.head? = some (s.headD 0) := by
  cases s with
  | nil => exact absurd rfl h
  | cons a t => rfl

theorem joinNl_ne_nil (L : List PyStr) (l : PyStr) (hl : l ≠ []) :
    joinNl (L ++ [l]) ≠ [] := by
  cases L with
  | nil => simpa using hl
  | cons a u =>
    rw [List.cons_append, joinNl_cons a (u ++ [l]) (by simp)]
    simp

theorem joinNl_getLastD (L : List PyStr) (l : PyStr) (d : Nat) (hl : l ≠ []) :
    (joinNl (L ++ [l])).getLastD d = l.getLastD d := by
  induction L generalizing d with
  | nil => simp [joinNl]
  | cons a u ih =>
    rw [List.cons_append, joinNl_cons a (u ++ [l]) (by simp)]
    rw [getLastD_append_right a (10 :: joinNl (u ++ [l])) d (by simp)]
    rw [List.getLastD_cons]
    rw [ih 10]
    exact getLastD_irrel l hl 10 d

theorem joinNl_headD (l : PyStr) (ls : List PyStr) (d : Nat) (hl : l ≠ []) :
    (joinNl (l :: ls)).headD d = l.headD d := by
  cases ls with
  | nil => rfl
  | cons a u =>
    rw [joinNl_cons l (a :: u) (by simp)]
    exact headD_append_left l _ d hl

/-! ### The option-line block -/

theorem optLines_no10 (k : Nat) (opts : List PyStr)
    (h : ∀ t ∈ opts, 10 ∉ t) :
    ∀ l ∈ optLinesML k opts, 10 ∉ l := by
  induction opts generalizing k with
  | nil => intro l hl; simp [optLinesML] at hl
  | cons t ts ih =>
    intro l hl
    simp only [optLinesML, List.mem_cons] at hl
    cases hl with
    | inl h1 =>
      subst h1
      intro hmem
      simp only [List.mem_cons] at hmem
      rcases hmem with h' | h' | h' | h'
      · omega
      · omega
      · omega
      · exact h t (by simp) h'
    | inr h1 => exact ih (k + 1) (fun x hx => h x (by simp [hx])) l h1

theorem optLines_strippedStr (k : Nat) (opts : List PyStr)
    (h : ∀ t ∈ opts, strippedStr t = true) :
    ∀ l ∈ optLinesML k opts, strippedStr l = true := by
  induction opts generalizing k with
  | nil => intro l hl; simp [optLinesML] at hl
  | cons t ts ih =>
    intro l hl
    simp only [optLinesML, List.mem_cons] at hl
    cases hl with
    | inl h1 =>
      subst h1
      have ht := h t (by simp)
      have htne : t ≠ [] := (strippedStr_facts t ht).1
      refine strippedStr_of_facts _ (by simp) ?_ ?_
      · simp only [List.headD_cons]
        exact isPySpace_false_of_ge _ (by omega)
      · have : ((97 + k) :: 41 :: 32 :: t) = [97 + k, 41, 32] ++ t := rfl
        rw [this, getLastD_append_right _ t 0 htne]
        exact (strippedStr_facts t ht).2.2
    | inr h1 => exact ih (k + 1) (fun x hx => h x (by simp [hx])) l h1

theorem filterMap_optLines_mq (k : Nat) (opts : List PyStr) (hk : k + opts.length ≤ 4) :
    (optLinesML k opts).filterMap matchQuestionLine = [] := by
  induction opts generalizing k with
  | nil => rfl
  | cons t ts ih =>
    simp only [optLinesML]
    rw [List.filterMap_cons_none (mq_on_optline k t (by simp at hk; omega))]
    exact ih (k + 1) (by simp at hk ⊢; omega)

theorem filterMap_optLines_ca (k : Nat) (opts : List PyStr) (hk : k + opts.length ≤ 4) :
    (optLinesML k opts).filterMap matchCALine = [] := by
  induction opts generalizing k with
  | nil => rfl
  | cons t ts ih =>
    simp only [optLinesML]
    rw [List.filterMap_cons_none (mca_on_optline k t (by simp at hk; omega))]
    exact ih (k + 1) (by simp at hk ⊢; omega)

theorem filterMap_optLines_ex (k : Nat) (opts : List PyStr) (hk : k + opts.length ≤ 4) :
    (optLinesML k opts).filterMap matchExplLine = [] := by
  induction opts generalizing k with
  | nil => rfl
  | cons t ts ih =>
    simp only [optLinesML]
    rw [List.filterMap_cons_none (mex_on_optline k t (by simp at hk; omega))]
    exact ih (k + 1) (by simp at hk ⊢; omega)

theorem filterMap_optLines_opt (k : Nat) (opts : List PyStr) (hk : k + opts.length ≤ 4)
    (hst : ∀ t ∈ opts, strippedStr t = true) :
    (optLinesML k opts).filterMap mlOptText = opts := by
  induction opts generalizing k with
  | nil => rfl
  | cons t ts ih =>
    simp only [optLinesML]
    have hmo : mlOptText ((97 + k) :: 41 :: 32 :: t) = some (pyStrip t) := by
      simp [mlOptText, mo_on_optline k t (by simp at hk; omega)]
    rw [List.filterMap_cons_some hmo]
    rw [pyStrip_eq_self t (hst t (by simp))]
    rw [ih (k + 1) (by simp at hk ⊢; omega) (fun x hx => hst x (by simp [hx]))]

/-! ### The four field streams of one question block -/

theorem qline_strippedStr (stem : PyStr) (h : strippedStr stem = true) :
    strippedStr (chars "Question: " ++ stem) = true := by
  obtain ⟨hne, hh, hl⟩ := strippedStr_facts stem h
  refine strippedStr_of_facts _ (by rw [chars_qline_eq]; simp) ?_ ?_
  · rw [chars_qline_eq, headD_append_left _ _ _ (by simp)]
    decide
  · rw [getLastD_append_right _ _ _ hne]
    exact hl

theorem qline_no10 (stem : PyStr) (h : 10 ∉ stem) :
    10 ∉ chars "Question: " ++ stem := by
  rw [chars_qline_eq]
  intro hmem
  rcases List.mem_append.mp hmem with h' | h'
  · simp at h'
  · exact h h'

theorem caline_strippedStr (letter : Nat) (h : 97 ≤ letter ∧ letter ≤ 100) :
    strippedStr (chars "Correct Answer: " ++ [letter]) = true := by
  refine strippedStr_of_facts _ (by rw [chars_caline_eq]; simp) ?_ ?_
  · rw [chars_caline_eq, headD_append_left _ _ _ (by simp)]
    decide
  · rw [getLastD_append_right _ _ _ (by simp)]
    exact isPySpace_false_of_ge letter (by omega)

theorem caline_no10 (letter : Nat) (h : 97 ≤ letter ∧ letter ≤ 100) :
    10 ∉ chars "Correct Answer: " ++ [letter] := by
  rw [chars_caline_eq]
  intro hmem
  rcases List.mem_append.mp hmem with h' | h'
  · simp at h'
  · simp at h'; omega

theorem block_lines_no10 (stem : PyStr) (opts : List PyStr) (letter : Nat)
    (h10 : 10 ∉ stem) (ho10 : ∀ t ∈ opts, 10 ∉ t)
    (hlet : 97 ≤ letter ∧ letter ≤ 100) :
    ∀ l ∈ mlBlockLines stem opts letter, 10 ∉ l := by
  intro l hl
  simp only [mlBlockLines, List.mem_cons, List.mem_append, List.mem_singleton] at hl
  rcases hl with h' | h' | h' | h'
  · subst h'; exact qline_no10 stem h10
  · exact optLines_no10 0 opts ho10 l h'
  · subst h'; exact caline_no10 letter hlet
  · simp at h'

theorem block_lines_stripped (stem : PyStr) (opts : List PyStr) (letter : Nat)
    (hstem : strippedStr stem = true) (hostr : ∀ t ∈ opts, strippedStr t = true)
    (hlet : 97 ≤ letter ∧ letter ≤ 100) :
    ∀ l ∈ mlBlockLines stem opts letter, strippedStr l = true := by
  intro l hl
  simp only [mlBlockLines, List.mem_cons, List.mem_append, List.mem_singleton] at hl
  rcases hl with h' | h' | h' | h'
  · subst h'; exact qline_strippedStr stem hstem
  · exact optLines_strippedStr 0 opts hostr l h'
  · subst h'; exact caline_strippedStr letter hlet
  · simp at h'

theorem block_filterMap_mq (stem : PyStr) (opts : List PyStr) (letter : Nat)
    (hstem : strippedStr stem = true) (hlen : opts.length ≤ 4) :
    (mlBlockLines stem opts letter).filterMap matchQuestionLine = [stem] := by
  have hq : matchQuestionLine (chars "Question: " ++ stem) = some stem := by
    rw [mq_on_qline, pyStrip_eq_self stem hstem]
  simp only [mlBlockLines]
  rw [List.filterMap_cons_some hq, List.filterMap_append]
  rw [filterMap_optLines_mq 0 opts (by omega)]
  rw [List.filterMap_cons_none (mq_on_caline letter), List.filterMap_nil]
  rfl

theorem block_filterMap_opt (stem : PyStr) (opts : List PyStr) (letter : Nat)
    (hstem : strippedStr stem = true) (hostr : ∀ t ∈ opts, strippedStr t = true)
    (hlen : opts.length ≤ 4) :
    (mlBlockLines stem opts letter).filterMap mlOptText = opts := by
  have hq : matchQuestionLine (chars "Question: " ++ stem) = some stem := by
    rw [mq_on_qline, pyStrip_eq_self stem hstem]
  have hq' : mlOptText (chars "Question: " ++ stem) = none := by
    simp [mlOptText, mo_none_of_mq _ _ hq]
  have hca : mlOptText (chars "Correct Answer: " ++ [letter]) = none := by
    simp [mlOptText, mo_on_caline letter]
  simp only [mlBlockLines]
  rw [List.filterMap_cons_none hq', List.filterMap_append]
  rw [filterMap_optLines_opt 0 opts (by omega) hostr]
  rw [List.filterMap_cons_none hca, List.filterMap_nil, List.append_nil]

theorem block_filterMap_ca (stem : PyStr) (opts : List PyStr) (letter : Nat)
    (hstem : strippedStr stem = true) (hlen : opts.length ≤ 4)
    (hlet : 97 ≤ letter ∧ letter ≤ 100) :
    (mlBlockLines stem opts letter).filterMap matchCALine = [letter] := by
  have hq : matchQuestionLine (chars "Question: " ++ stem) = some stem := by
    rw [mq_on_qline, pyStrip_eq_self stem hstem]
  have hq' := mca_none_of_mq _ _ hq
  simp only [mlBlockLines]
  rw [List.filterMap_cons_none hq', List.filterMap_append]
  rw [filterMap_optLines_ca 0 opts (by omega)]
  rw [List.filterMap_cons_some (mca_on_caline letter hlet), List.filterMap_nil]
  rfl

theorem block_filterMap_ex (stem : PyStr) (opts : List PyStr) (letter : Nat)
    (hstem : strippedStr stem = true) (hlen : opts.length ≤ 4) :
    (mlBlockLines stem opts letter).filterMap matchExplLine = [] := by
  have hq : matchQuestionLine (chars "Question: " ++ stem) = some stem := by
    rw [mq_on_qline, pyStrip_eq_self stem hstem]
  have hq' := mex_none_of_mq _ _ hq
  simp only [mlBlockLines]
  rw [List.filterMap_cons_none hq', List.filterMap_append]
  rw [filterMap_optLines_ex 0 opts (by omega)]
  rw [List.filterMap_cons_none (mex_on_caline letter), List.filterMap_nil]
  rfl

/-! ### Assembled submissions are stripped and split back into their lines -/

theorem assembleML_stripped (stem : PyStr) (opts : List PyStr) (letter : Nat)
    (_hstem : strippedStr stem = true) (hlet : 97 ≤ letter ∧ letter ≤ 100) :
    strippedStr (assembleML stem opts letter) = true := by
  have hqne : chars "Question: " ++ stem ≠ [] := by rw [chars_qline_eq]; simp
  have hcane : chars "Correct Answer: " ++ [letter] ≠ [] := by
    rw [chars_caline_eq]; simp
  refine strippedStr_of_facts _ ?_ ?_ ?_
  · unfold assembleML mlBlockLines
    rw [show ((chars "Question: " ++ stem) :: (optLinesML 0 opts ++ [chars "Correct Answer: " ++ [letter]]))
        = ((chars "Question: " ++ stem) :: optLinesML 0 opts) ++ [chars "Correct Answer: " ++ [letter]]
        from by simp]
    exact joinNl_ne_nil _ _ hcane
  · unfold assembleML mlBlockLines
    rw [joinNl_headD _ _ _ hqne]
    rw [chars_qline_eq, headD_append_left _ _ _ (by simp)]
    decide
  · unfold assembleML mlBlockLines
    rw [show ((chars "Question: " ++ stem) :: (optLinesML 0 opts ++ [chars "Correct Answer: " ++ [letter]]))
        = ((chars "Question: " ++ stem) :: optLinesML 0 opts) ++ [chars "Correct Answer: " ++ [letter]]
        from by simp]
    rw [joinNl_getLastD _ _ _ hcane]
    rw [getLastD_append_right _ _ _ (by simp)]
    exact isPySpace_false_of_ge letter (by omega)

theorem assembleML_lines (stem : PyStr) (opts : List PyStr) (letter : Nat)
    (hstem : strippedStr stem = true) (h10 : 10 ∉ stem)
    (hostr : ∀ t ∈ opts, strippedStr t = true) (ho10 : ∀ t ∈ opts, 10 ∉ t)
    (hlet : 97 ≤ letter ∧ letter ≤ 100) :
    strippedLines (assembleML stem opts letter) = mlBlockLines stem opts letter := by
  unfold assembleML
  exact strippedLines_joinNl _ (by simp [mlBlockLines])
    (block_lines_no10 stem opts letter h10 ho10 hlet)
    (block_lines_stripped stem opts letter hstem hostr hlet)

theorem assembleML_ne_nil (stem : PyStr) (opts : List PyStr) (letter : Nat) :
    assembleML stem opts letter ≠ [] := by
  unfold assembleML mlBlockLines
  rw [show ((chars "Question: " ++ stem) :: (optLinesML 0 opts ++ [chars "Correct Answer: " ++ [letter]]))
      = ((chars "Question: " ++ stem) :: optLinesML 0 opts) ++ [chars "Correct Answer: " ++ [letter]]
      from by simp]
  exact joinNl_ne_nil _ _ (by rw [chars_caline_eq]; simp)

theorem assembleML_headD (stem : PyStr) (opts : List PyStr) (letter : Nat) :
    (assembleML stem opts letter).headD 0 = 81 := by
  unfold assembleML mlBlockLines
  rw [joinNl_headD _ _ _ (by rw [chars_qline_eq]; simp)]
  rw [chars_qline_eq, headD_append_left _ _ _ (by simp)]
  rfl

theorem classify_multi_of (t : PyStr)
    (hj : jsonShaped (pyStrip t) = false)
    (hs : singleShaped (pyStrip t) = false)
    (hdd : hasDigitDot (pyStrip t) = false)
    (ho : occursIn (chars "Options:") (pyStrip t) = false) :
    classify t = .gmulti := by
  unfold classify
  simp [hj, hs, hdd, ho]

theorem parse_ml_success (t : PyStr) (q : PyStr) (os : List PyStr) (i : Int) (e : PyStr)
    (hfold : (strippedLines (pyStrip t)).foldl mlStep ⟨[], [], none, []⟩ = ⟨q, os, some i, e⟩)
    (hq : q ≠ []) (hlen : ¬(os.length < 2)) (hi : ¬(i ≥ (os.length : Int))) :
    parse_multi_line_mcq t =
      ⟨some (.jstr q), some (os.map .jstr), some i, some (.jstr e)⟩ := by
  unfold parse_multi_line_mcq mlValidate
  rw [hfold]
  show (if q = [] then pfail
    else if os.length < 2 then pfail
    else if i ≥ (os.length : Int) then pfail
    else ⟨some (.jstr q), some (os.map .jstr), some i, some (.jstr e)⟩) = _
  rw [if_neg hq, if_neg hlen, if_neg hi]

/-- Claim C2 (amended): a well-formed multi-line labeled submission with
N options (2 <= N <= 4) labeled consecutively from `a)` and a lowercase
`Correct Answer:` letter among the first N letters parses to exactly one
question whose correct index is the letter ordinal minus ord('a');
labels above d are not supported (see the counterexample). -/
theorem parse_mcq_on_block
    (stem : PyStr) (opts : List PyStr) (letter : Nat)
    (hstem : strippedStr stem = true) (h10 : 10 ∉ stem)
    (hostr : ∀ t ∈ opts, strippedStr t = true) (ho10 : ∀ t ∈ opts, 10 ∉ t)
    (hlen2 : 2 ≤ opts.length) (hlen4 : opts.length ≤ 4)
    (hlet : 97 ≤ letter ∧ letter ≤ 100)
    (hsel : letter - 97 < opts.length)
    (h124 : (assembleML stem opts letter).contains 124 = false)
    (hdd : hasDigitDot (assembleML stem opts letter) = false)
    (hopt : occursIn (chars "Options:") (assembleML stem opts letter) = false) :
    parse_mcq (assembleML stem opts letter) =
      ⟨some (.jstr stem), some (opts.map .jstr), some ((letter : Int) - 97),
       some (.jstr [])⟩ := by
  have hstemne : stem ≠ [] := (strippedStr_facts stem hstem).1
  have hstrip : pyStrip (assembleML stem opts letter) = assembleML stem opts letter :=
    pyStrip_eq_self _ (assembleML_stripped stem opts letter hstem hlet)
  have hhead : (assembleML stem opts letter).head? = some 81 := by
    rw [head?_eq_headD _ (assembleML_ne_nil stem opts letter)]
    rw [assembleML_headD]
  have hj : jsonShaped (pyStrip (assembleML stem opts letter)) = false := by
    rw [hstrip]
    unfold jsonShaped
    rw [hhead]
    rfl
  have hsh : singleShaped (pyStrip (assembleML stem opts letter)) = false := by
    rw [hstrip]
    unfold singleShaped
    rw [h124]
    rfl
  have hdd' : hasDigitDot (pyStrip (assembleML stem opts letter)) = false := by
    rw [hstrip]; exact hdd
  have hopt' : occursIn (chars "Options:") (pyStrip (assembleML stem opts letter)) = false := by
    rw [hstrip]; exact hopt
  have hcl : classify (assembleML stem opts letter) = .gmulti :=
    classify_multi_of _ hj hsh hdd' hopt'
  have hroute : parse_mcq (assembleML stem opts letter) =
      parse_multi_line_mcq (pyStrip (assembleML stem opts letter)) := by
    unfold parse_mcq
    rw [hcl]
  rw [hroute, hstrip]
  have hst : (strippedLines (pyStrip (assembleML stem opts letter))).foldl mlStep
      ⟨[], [], none, []⟩ = ⟨stem, opts, some ((letter : Int) - 97), []⟩ := by
    rw [hstrip, assembleML_lines stem opts letter hstem h10 hostr ho10 hlet]
    obtain ⟨e1, e2, e3, e4⟩ := mlFold_spec (mlBlockLines stem opts letter) ⟨[], [], none, []⟩
    have e1' : ((mlBlockLines stem opts letter).foldl mlStep ⟨[], [], none, []⟩).question = stem := by
      rw [e1, block_filterMap_mq stem opts letter hstem hlen4]; rfl
    have e2' : ((mlBlockLines stem opts letter).foldl mlStep ⟨[], [], none, []⟩).options = opts := by
      rw [e2, block_filterMap_opt stem opts letter hstem hostr hlen4]; rfl
    have e3' : ((mlBlockLines stem opts letter).foldl mlStep ⟨[], [], none, []⟩).idx
        = some ((letter : Int) - 97) := by
      rw [e3, block_filterMap_ca stem opts letter hstem hlen4 hlet]; rfl
    have e4' : ((mlBlockLines stem opts letter).foldl mlStep ⟨[], [], none, []⟩).expl = [] := by
      rw [e4, block_filterMap_ex stem opts letter hstem hlen4]; rfl
    have hgen : ∀ x : MLState, x.question = stem → x.options = opts →
        x.idx = some ((letter : Int) - 97) → x.expl = [] →
        x = ⟨stem, opts, some ((letter : Int) - 97), []⟩ := by
      intro x h1 h2 h3 h4
      cases x
      simp only [MLState.mk.injEq]
      exact ⟨h1, h2, h3, h4⟩
    exact hgen _ e1' e2' e3' e4'
  have h2 : ¬(opts.length < 2) := by omega
  have h3 : ¬(((letter : Int) - 97) ≥ (opts.length : Int)) := by omega
  exact parse_ml_success _ stem opts ((letter : Int) - 97) [] hst hstemne h2 h3

/-! ### Two back-to-back blocks -/

theorem assembleML2_stripped (s1 : PyStr) (o1 : List PyStr) (l1 : Nat)
    (s2 : PyStr) (o2 : List PyStr) (l2 : Nat)
    (_hs1 : strippedStr s1 = true) (hl2 : 97 ≤ l2 ∧ l2 ≤ 100) :
    strippedStr (assembleML2 s1 o1 l1 s2 o2 l2) = true := by
  have hqne : chars "Question: " ++ s1 ≠ [] := by rw [chars_qline_eq]; simp
  have hcane : chars "Correct Answer: " ++ [l2] ≠ [] := by rw [chars_caline_eq]; simp
  have hshape : mlBlockLines s1 o1 l1 ++ mlBlockLines s2 o2 l2
      = (chars "Question: " ++ s1) ::
        ((optLinesML 0 o1 ++ [chars "Correct Answer: " ++ [l1]]
          ++ ((chars "Question: " ++ s2) :: optLinesML 0 o2))
         ++ [chars "Correct Answer: " ++ [l2]]) := by
    simp [mlBlockLines]
  refine strippedStr_of_facts _ ?_ ?_ ?_
  · unfold assembleML2
    rw [hshape, show ∀ (a : PyStr) (L : List PyStr), a :: L = [a] ++ L from fun a L => rfl]
    rw [show ([chars "Question: " ++ s1] ++
        ((optLinesML 0 o1 ++ [chars "Correct Answer: " ++ [l1]]
          ++ ((chars "Question: " ++ s2) :: optLinesML 0 o2))
         ++ [chars "Correct Answer: " ++ [l2]]))
        = ([chars "Question: " ++ s1] ++
        (optLinesML 0 o1 ++ [chars "Correct Answer: " ++ [l1]]
          ++ ((chars "Question: " ++ s2) :: optLinesML 0 o2)))
         ++ [chars "Correct Answer: " ++ [l2]] from by simp]
    exact joinNl_ne_nil _ _ hcane
  · unfold assembleML2
    rw [hshape, joinNl_headD _ _ _ hqne]
    rw [chars_qline_eq, headD_append_left _ _ _ (by simp)]
    rfl
  · unfold assembleML2
    rw [hshape, show ∀ (a : PyStr) (L : List PyStr), a :: L = [a] ++ L from fun a L => rfl]
    rw [show ([chars "Question: " ++ s1] ++
        ((optLinesML 0 o1 ++ [chars "Correct Answer: " ++ [l1]]
          ++ ((chars "Question: " ++ s2) :: optLinesML 0 o2))
         ++ [chars "Correct Answer: " ++ [l2]]))
        = ([chars "Question: " ++ s1] ++
        (optLinesML 0 o1 ++ [chars "Correct Answer: " ++ [l1]]
          ++ ((chars "Question: " ++ s2) :: optLinesML 0 o2)))
         ++ [chars "Correct Answer: " ++ [l2]] from by simp]
    rw [joinNl_getLastD _ _ _ hcane]
    rw [getLastD_append_right _ _ _ (by simp)]
    exact isPySpace_false_of_ge l2 (by omega)

theorem assembleML2_headD (s1 : PyStr) (o1 : List PyStr) (l1 : Nat)
    (s2 : PyStr) (o2 : List PyStr) (l2 : Nat) :
    (assembleML2 s1 o1 l1 s2 o2 l2).headD 0 = 81 := by
  unfold assembleML2
  rw [show mlBlockLines s1 o1 l1 ++ mlBlockLines s2 o2 l2
      = (chars "Question: " ++ s1) ::
        (optLinesML 0 o1 ++ [chars "Correct Answer: " ++ [l1]]
          ++ mlBlockLines s2 o2 l2) from by simp [mlBlockLines]]
  rw [joinNl_headD _ _ _ (by rw [chars_qline_eq]; simp)]
  rw [chars_qline_eq, headD_append_left _ _ _ (by simp)]
  rfl

theorem assembleML2_ne_nil (s1 : PyStr) (o1 : List PyStr) (l1 : Nat)
    (s2 : PyStr) (o2 : List PyStr) (l2 : Nat) :
    assembleML2 s1 o1 l1 s2 o2 l2 ≠ [] := by
  unfold assembleML2
  rw [show mlBlockLines s1 o1 l1 ++ mlBlockLines s2 o2 l2
      = ((chars "Question: " ++ s1) ::
        (optLinesML 0 o1 ++ [chars "Correct Answer: " ++ [l1]]
          ++ ((chars "Question: " ++ s2) :: optLinesML 0 o2)))
        ++ [chars "Correct Answer: " ++ [l2]] from by simp [mlBlockLines]]
  exact joinNl_ne_nil _ _ (by rw [chars_caline_eq]; simp)

theorem assembleML2_lines (s1 : PyStr) (o1 : List PyStr) (l1 : Nat)
    (s2 : PyStr) (o2 : List PyStr) (l2 : Nat)
    (hs1 : strippedStr s1 = true) (h101 : 10 ∉ s1)
    (ho1s : ∀ t ∈ o1, strippedStr t = true) (ho110 : ∀ t ∈ o1, 10 ∉ t)
    (hl1 : 97 ≤ l1 ∧ l1 ≤ 100)
    (hs2 : strippedStr s2 = true) (h102 : 10 ∉ s2)
    (ho2s : ∀ t ∈ o2, strippedStr t = true) (ho210 : ∀ t ∈ o2, 10 ∉ t)
    (hl2 : 97 ≤ l2 ∧ l2 ≤ 100) :
    strippedLines (assembleML2 s1 o1 l1 s2 o2 l2)
      = mlBlockLines s1 o1 l1 ++ mlBlockLines s2 o2 l2 := by
  unfold assembleML2
  refine strippedLines_joinNl _ (by simp [mlBlockLines]) ?_ ?_
  · intro l hl
    rcases List.mem_append.mp hl with h' | h'
    · exact block_lines_no10 s1 o1 l1 h101 ho110 hl1 l h'
    · exact block_lines_no10 s2 o2 l2 h102 ho210 hl2 l h'
  · intro l hl
    rcases List.mem_append.mp hl with h' | h'
    · exact block_lines_stripped s1 o1 l1 hs1 ho1s hl1 l h'
    · exact block_lines_stripped s2 o2 l2 hs2 ho2s hl2 l h'

/-- Claim C3 (amended): two valid back-to-back multi-line questions
(two options each) are merged by `parse_mcq` into a single result, not
two: the second stem wins, the options concatenate in order, and the
index comes from the last Correct Answer line. -/
theorem parse_mcq_on_two_blocks
    (s1 : PyStr) (o1 : List PyStr) (l1 : Nat)
    (s2 : PyStr) (o2 : List PyStr) (l2 : Nat)
    (hs1 : strippedStr s1 = true) (h101 : 10 ∉ s1)
    (ho1s : ∀ t ∈ o1, strippedStr t = true) (ho110 : ∀ t ∈ o1, 10 ∉ t)
    (hlen1a : 2 ≤ o1.length) (hlen1b : o1.length ≤ 4)
    (hl1 : 97 ≤ l1 ∧ l1 ≤ 100) (hsel1 : l1 - 97 < o1.length)
    (hs2 : strippedStr s2 = true) (h102 : 10 ∉ s2)
    (ho2s : ∀ t ∈ o2, strippedStr t = true) (ho210 : ∀ t ∈ o2, 10 ∉ t)
    (hlen2a : 2 ≤ o2.length) (hlen2b : o2.length ≤ 4)
    (hl2 : 97 ≤ l2 ∧ l2 ≤ 100) (_hsel2 : l2 - 97 < o2.length)
    (h124 : (assembleML2 s1 o1 l1 s2 o2 l2).contains 124 = false)
    (hdd : hasDigitDot (assembleML2 s1 o1 l1 s2 o2 l2) = false)
    (hopt : occursIn (chars "Options:") (assembleML2 s1 o1 l1 s2 o2 l2) = false) :
    parse_mcq (assembleML2 s1 o1 l1 s2 o2 l2) =
      ⟨some (.jstr s2), some ((o1 ++ o2).map .jstr), some ((l2 : Int) - 97),
       some (.jstr [])⟩ := by
  have hs2ne : s2 ≠ [] := (strippedStr_facts s2 hs2).1
  have hstrip : pyStrip (assembleML2 s1 o1 l1 s2 o2 l2) = assembleML2 s1 o1 l1 s2 o2 l2 :=
    pyStrip_eq_self _ (assembleML2_stripped s1 o1 l1 s2 o2 l2 hs1 hl2)
  have hhead : (assembleML2 s1 o1 l1 s2 o2 l2).head? = some 81 := by
    rw [head?_eq_headD _ (assembleML2_ne_nil s1 o1 l1 s2 o2 l2)]
    rw [assembleML2_headD]
  have hj : jsonShaped (pyStrip (assembleML2 s1 o1 l1 s2 o2 l2)) = false := by
    rw [hstrip]; unfold jsonShaped; rw [hhead]; rfl
  have hsh : singleShaped (pyStrip (assembleML2 s1 o1 l1 s2 o2 l2)) = false := by
    rw [hstrip]; unfold singleShaped; rw [h124]; rfl
  have hcl : classify (assembleML2 s1 o1 l1 s2 o2 l2) = .gmulti :=
    classify_multi_of _ hj hsh (by rw [hstrip]; exact hdd) (by rw [hstrip]; exact hopt)
  have hroute : parse_mcq (assembleML2 s1 o1 l1 s2 o2 l2) =
      parse_multi_line_mcq (pyStrip (assembleML2 s1 o1 l1 s2 o2 l2)) := by
    unfold parse_mcq
    rw [hcl]
  rw [hroute, hstrip]
  have hst : (strippedLines (pyStrip (assembleML2 s1 o1 l1 s2 o2 l2))).foldl mlStep
      ⟨[], [], none, []⟩ = ⟨s2, o1 ++ o2, some ((l2 : Int) - 97), []⟩ := by
    rw [hstrip, assembleML2_lines s1 o1 l1 s2 o2 l2 hs1 h101 ho1s ho110 hl1 hs2 h102 ho2s ho210 hl2]
    obtain ⟨e1, e2, e3, e4⟩ :=
      mlFold_spec (mlBlockLines s1 o1 l1 ++ mlBlockLines s2 o2 l2) ⟨[], [], none, []⟩
    have f1 : (mlBlockLines s1 o1 l1 ++ mlBlockLines s2 o2 l2).filterMap matchQuestionLine
        = [s1, s2] := by
      rw [List.filterMap_append, block_filterMap_mq s1 o1 l1 hs1 hlen1b,
          block_filterMap_mq s2 o2 l2 hs2 hlen2b]
      rfl
    have f2 : (mlBlockLines s1 o1 l1 ++ mlBlockLines s2 o2 l2).filterMap mlOptText
        = o1 ++ o2 := by
      rw [List.filterMap_append, block_filterMap_opt s1 o1 l1 hs1 ho1s hlen1b,
          block_filterMap_opt s2 o2 l2 hs2 ho2s hlen2b]
    have f3 : (mlBlockLines s1 o1 l1 ++ mlBlockLines s2 o2 l2).filterMap matchCALine
        = [l1, l2] := by
      rw [List.filterMap_append, block_filterMap_ca s1 o1 l1 hs1 hlen1b hl1,
          block_filterMap_ca s2 o2 l2 hs2 hlen2b hl2]
      rfl
    have f4 : (mlBlockLines s1 o1 l1 ++ mlBlockLines s2 o2 l2).filterMap matchExplLine
        = [] := by
      rw [List.filterMap_append, block_filterMap_ex s1 o1 l1 hs1 hlen1b,
          block_filterMap_ex s2 o2 l2 hs2 hlen2b]
      rfl
    have e1' := e1
    rw [f1] at e1'
    have e2' := e2
    rw [f2] at e2'
    have e3' := e3
    rw [f3] at e3'
    have e4' := e4
    rw [f4] at e4'
    have hgen : ∀ x : MLState, x.question = s2 → x.options = o1 ++ o2 →
        x.idx = some ((l2 : Int) - 97) → x.expl = [] →
        x = ⟨s2, o1 ++ o2, some ((l2 : Int) - 97), []⟩ := by
      intro x h1 h2 h3 h4
      cases x
      simp only [MLState.mk.injEq]
      exact ⟨h1, h2, h3, h4⟩
    exact hgen _ (by rw [e1']; rfl) (by rw [e2']; rfl) (by rw [e3']; rfl) (by rw [e4']; rfl)
  have h2 : ¬((o1 ++ o2).length < 2) := by
    rw [List.length_append]; omega
  have h3 : ¬(((l2 : Int) - 97) ≥ ((o1 ++ o2).length : Int)) := by
    rw [List.length_append]
    push_cast
    omega
  exact parse_ml_success _ s2 (o1 ++ o2) ((l2 : Int) - 97) [] hst hs2ne h2 h3

/-! ### Inversion of the validation blocks -/

theorem mlValidate_shape (st : MLState) :
    mlValidate st = pfail ∨
    ∃ i, st.idx = some i ∧ st.question ≠ [] ∧ 2 ≤ st.options.length ∧
      i < (st.options.length : Int) ∧
      mlValidate st = ⟨some (.jstr st.question), some (st.options.map .jstr),
        some i, some (.jstr st.expl)⟩ := by
  unfold mlValidate
  by_cases c1 : st.question = []
  · left; rw [if_pos c1]
  · rw [if_neg c1]
    by_cases c2 : st.options.length < 2
    · left; rw [if_pos c2]
    · rw [if_neg c2]
      cases hidx : st.idx with
      | none => left; rfl
      | some i =>
        by_cases c3 : i ≥ (st.options.length : Int)
        · left
          show (if i ≥ (st.options.length : Int) then pfail else _) = pfail
          rw [if_pos c3]
        · right
          refine ⟨i, rfl, c1, by omega, by omega, ?_⟩
          show (if i ≥ (st.options.length : Int) then pfail else _) = _
          rw [if_neg c3]

theorem nValidate_shape (st : MLState) :
    nValidate st = pfail ∨
    ∃ i, st.idx = some i ∧ st.question ≠ [] ∧ st.options ≠ [] ∧
      nValidate st = ⟨some (.jstr st.question), some (st.options.map .jstr),
        some i, some (.jstr st.expl)⟩ := by
  unfold nValidate
  by_cases c1 : st.question = []
  · left; rw [if_pos c1]
  · rw [if_neg c1]
    by_cases c2 : st.options.isEmpty
    · left; rw [if_pos c2]
    · rw [if_neg c2]
      cases hidx : st.idx with
      | none => left; rfl
      | some i =>
        right
        refine ⟨i, rfl, c1, ?_, rfl⟩
        simpa using c2

theorem mca_range (l : PyStr) (c : Nat) (h : matchCALine l = some c) :
    97 ≤ c ∧ c ≤ 100 := by
  unfold matchCALine at h
  split at h
  · exact absurd h (by simp)
  · split at h
    · split at h
      · split at h
        · have hc : c = lowerNat _ := (Option.some.injEq _ _ ▸ h.symm)
          rw [hc]
          exact lowerNat_of_inRangeAD _ (by assumption)
        · exact absurd h (by simp)
      · exact absurd h (by simp)
    · exact absurd h (by simp)

theorem ml_idx_of_fold (t : PyStr) (i : Int)
    (hidx : ((strippedLines (pyStrip t)).foldl mlStep ⟨[], [], none, []⟩).idx = some i) :
    ∃ c, (caLetters t).getLast? = some c ∧ i = (c : Int) - 97 ∧ 97 ≤ c ∧ c ≤ 100 := by
  obtain ⟨e1, e2, e3, e4⟩ := mlFold_spec (strippedLines (pyStrip t)) ⟨[], [], none, []⟩
  rw [hidx] at e3
  cases hlast : (caLetters t).getLast? with
  | none =>
    have hnil : (strippedLines (pyStrip t)).filterMap matchCALine = [] := by
      rw [← List.getLast?_eq_none_iff]
      exact hlast
    rw [hnil] at e3
    simp at e3
  | some c =>
    have hmem : c ∈ (strippedLines (pyStrip t)).filterMap matchCALine :=
      List.mem_of_getLast?_eq_some hlast
    obtain ⟨l, _, hl⟩ := List.mem_filterMap.mp hmem
    have hrange := mca_range l c hl
    have hmapLast : (((strippedLines (pyStrip t)).filterMap matchCALine).map caIdx).getLast?
        = some (caIdx c) := by
      rw [List.getLast?_map]
      rw [show ((strippedLines (pyStrip t)).filterMap matchCALine).getLast?
          = some c from hlast]
      rfl
    rw [List.getLastD_eq_getLast?, hmapLast] at e3
    simp only [Option.getD_some, caIdx] at e3
    exact ⟨c, rfl, (Option.some.injEq _ _).mp e3, hrange.1, hrange.2⟩

/-- Claim C9: in the multi-line grammar, option texts are collected in
physical order with their declared letters discarded, and the returned
index is computed from the last `Correct Answer:` letter alone, so the
index selects an option by physical position, not by the line bearing
that letter. -/
theorem ml_options_physical_order (t : PyStr) (qv : JVal) (os : List JVal)
    (i : Int) (ev : JVal)
    (h : parse_multi_line_mcq t = ⟨some qv, some os, some i, some ev⟩) :
    os = (mlOptionTexts t).map .jstr ∧
    ∃ c, (caLetters t).getLast? = some c ∧ i = (c : Int) - 97 := by
  have hfold := mlFold_spec (strippedLines (pyStrip t)) ⟨[], [], none, []⟩
  obtain ⟨e1, e2, e3, e4⟩ := hfold
  rcases mlValidate_shape ((strippedLines (pyStrip t)).foldl mlStep ⟨[], [], none, []⟩) with
    hp | ⟨i', hidx, hqne, hlen, hlt, heq⟩
  · rw [show parse_multi_line_mcq t
        = mlValidate ((strippedLines (pyStrip t)).foldl mlStep ⟨[], [], none, []⟩)
        from rfl, hp] at h
    have hq := congrArg PResult.q h
    simp [pfail] at hq
  · rw [show parse_multi_line_mcq t
        = mlValidate ((strippedLines (pyStrip t)).foldl mlStep ⟨[], [], none, []⟩)
        from rfl, heq] at h
    have hos : os = ((strippedLines (pyStrip t)).foldl mlStep ⟨[], [], none, []⟩).options.map .jstr := by
      have := congrArg PResult.opts h
      simpa using this.symm
    have hi : i' = i := by
      have := congrArg PResult.idx h
      simpa using this
    constructor
    · rw [hos, e2]
      rfl
    · obtain ⟨c, hcl, hceq, _, _⟩ := ml_idx_of_fold t i (by rw [hidx, hi])
      exact ⟨c, hcl, hceq⟩

/-! ### Index bounds -/

theorem pyIndexOf_lt (xs : List PyStr) (a : PyStr) (i : Nat)
    (h : pyIndexOf xs a = some i) : i < xs.length := by
  induction xs generalizing i with
  | nil => simp [pyIndexOf] at h
  | cons x xs ih =>
    unfold pyIndexOf at h
    by_cases hx : x = a
    · rw [if_pos hx] at h
      cases h
      simp
    · rw [if_neg hx] at h
      cases hrec : pyIndexOf xs a with
      | none => rw [hrec] at h; simp at h
      | some j =>
        rw [hrec] at h
        have h' : j + 1 = i := by simpa using h
        have := ih j hrec
        simp only [List.length_cons]
        omega

theorem inline_success_inv (t : PyStr) (qv : JVal) (os : List JVal) (i : Int)
    (ev : Option JVal)
    (h : parse_inline_options_mcq t = ⟨some qv, some os, some i, ev⟩) :
    0 ≤ i ∧ i < (os.length : Int) := by
  unfold parse_inline_options_mcq at h
  split at h
  case _ qg og ag hq ho ha =>
    by_cases hemp : (((splitOnChar 44 og).map pyStrip).filter (· ≠ [])).isEmpty
    · rw [if_pos hemp] at h
      have := congrArg PResult.q h
      simp [pfail] at this
    · rw [if_neg hemp] at h
      cases hio : pyIndexOf (((splitOnChar 44 og).map pyStrip).filter (· ≠ []))
          (pyStrip ag) with
      | none =>
        rw [hio] at h
        have := congrArg PResult.q h
        simp [pfail] at this
      | some k =>
        rw [hio] at h
        have hk := pyIndexOf_lt _ _ _ hio
        have hoseq : os
            = ((((splitOnChar 44 og).map pyStrip).filter (· ≠ [])).map JVal.jstr) := by
          have h2 := congrArg PResult.opts h
          simp only at h2
          exact ((Option.some.injEq _ _).mp h2).symm
        have hieq : i = (k : Int) := by
          have h2 := congrArg PResult.idx h
          simp only at h2
          exact ((Option.some.injEq _ _).mp h2).symm
        constructor
        · rw [hieq]
          exact Int.ofNat_nonneg k
        · rw [hieq, hoseq, List.length_map]
          exact_mod_cast hk
  case _ =>
    have := congrArg PResult.q h
    simp [pfail] at this

/-- Claim C1 (amended): in the multi-line labeled and inline-comma
grammars, every successfully returned correct_option_index i satisfies
0 <= i < len(options); the delimited single-line, numbered, and
structured/JSON grammars do not enforce this bound (see the
counterexample). -/
theorem parse_index_in_range_ml_inline (t : PyStr) (qv : JVal) (os : List JVal)
    (i : Int) (ev : Option JVal) :
    (parse_multi_line_mcq t = ⟨some qv, some os, some i, ev⟩ →
      0 ≤ i ∧ i < (os.length : Int))
  ∧ (parse_inline_options_mcq t = ⟨some qv, some os, some i, ev⟩ →
      0 ≤ i ∧ i < (os.length : Int)) := by
  constructor
  · intro h
    rcases mlValidate_shape ((strippedLines (pyStrip t)).foldl mlStep ⟨[], [], none, []⟩) with
      hp | ⟨i', hidx, hqne, hlen, hlt, heq⟩
    · rw [show parse_multi_line_mcq t
          = mlValidate ((strippedLines (pyStrip t)).foldl mlStep ⟨[], [], none, []⟩)
          from rfl, hp] at h
      have hq := congrArg PResult.q h
      simp [pfail] at hq
    · rw [show parse_multi_line_mcq t
          = mlValidate ((strippedLines (pyStrip t)).foldl mlStep ⟨[], [], none, []⟩)
          from rfl, heq] at h
      have hieq : i' = i := by
        have h2 := congrArg PResult.idx h
        simp only at h2
        exact (Option.some.injEq _ _).mp h2
      have hoseq : os = ((strippedLines (pyStrip t)).foldl mlStep
          ⟨[], [], none, []⟩).options.map JVal.jstr := by
        have h2 := congrArg PResult.opts h
        simp only at h2
        exact ((Option.some.injEq _ _).mp h2).symm
      obtain ⟨c, hcl, hceq, hc1, hc2⟩ := ml_idx_of_fold t i (by rw [hidx, hieq])
      constructor
      · omega
      · rw [hoseq, List.length_map]
        rw [← hieq]
        exact hlt
  · exact inline_success_inv t qv os i ev

/-- Claim C4 (amended): only the multi-line labeled parser enforces the
two-option minimum; whenever it returns an option list there are at
least two entries.  No parser enforces the ten-option maximum (see the
counterexample, where eleven options are accepted). -/
theorem ml_min_two_options (t : PyStr) (os : List JVal)
    (h : (parse_multi_line_mcq t).opts = some os) : 2 ≤ os.length := by
  rcases mlValidate_shape ((strippedLines (pyStrip t)).foldl mlStep ⟨[], [], none, []⟩) with
    hp | ⟨i', hidx, hqne, hlen, hlt, heq⟩
  · rw [show parse_multi_line_mcq t
        = mlValidate ((strippedLines (pyStrip t)).foldl mlStep ⟨[], [], none, []⟩)
        from rfl, hp] at h
    simp [pfail] at h
  · rw [show parse_multi_line_mcq t
        = mlValidate ((strippedLines (pyStrip t)).foldl mlStep ⟨[], [], none, []⟩)
        from rfl, heq] at h
    simp only at h
    have := (Option.some.injEq _ _).mp h
    rw [← this, List.length_map]
    exact hlen

/-! ### Failure shape of every parser -/

theorem ml_shape (t : PyStr) :
    parse_multi_line_mcq t = pfail ∨
    ((parse_multi_line_mcq t).q ≠ none ∧ (parse_multi_line_mcq t).opts ≠ none ∧
     (parse_multi_line_mcq t).idx ≠ none) := by
  rcases mlValidate_shape ((strippedLines (pyStrip t)).foldl mlStep ⟨[], [], none, []⟩) with
    hp | ⟨i', _, _, _, _, heq⟩
  · left; exact hp
  · right
    rw [show parse_multi_line_mcq t
        = mlValidate ((strippedLines (pyStrip t)).foldl mlStep ⟨[], [], none, []⟩)
        from rfl, heq]
    simp

theorem n_shape (t : PyStr) :
    parse_numbered_options_mcq t = pfail ∨
    ((parse_numbered_options_mcq t).q ≠ none ∧ (parse_numbered_options_mcq t).opts ≠ none ∧
     (parse_numbered_options_mcq t).idx ≠ none) := by
  rcases nValidate_shape ((strippedLines t).foldl nStep ⟨[], [], none, []⟩) with
    hp | ⟨i', _, _, _, heq⟩
  · left; exact hp
  · right
    rw [show parse_numbered_options_mcq t
        = nValidate ((strippedLines t).foldl nStep ⟨[], [], none, []⟩)
        from rfl, heq]
    simp

theorem singleFinish_shape (d : List (PyStr × PyStr)) :
    singleFinish d = pfail ∨
    ((singleFinish d).q ≠ none ∧ (singleFinish d).opts ≠ none ∧
     (singleFinish d).idx ≠ none) := by
  unfold singleFinish
  dsimp only
  split
  · left; rfl
  · split
    · split
      · right; simp
      · left; rfl
    · left; rfl

theorem single_shape (t : PyStr) :
    parse_single_line_mcq t = pfail ∨
    ((parse_single_line_mcq t).q ≠ none ∧ (parse_single_line_mcq t).opts ≠ none ∧
     (parse_single_line_mcq t).idx ≠ none) := by
  unfold parse_single_line_mcq
  cases hb : singleBody t with
  | error e => left; rfl
  | ok r =>
    unfold singleBody at hb
    dsimp only at hb
    cases hd : buildDict (((splitOnChar 124 (pyStrip t)).map pyStrip).filter (· ≠ [])) (.ok []) with
    | error e => rw [hd] at hb; simp at hb
    | ok data =>
      rw [hd] at hb
      simp only [Except.ok.injEq] at hb
      rw [← hb]
      exact singleFinish_shape data

theorem jsonFinish_shape (kvs : List (PyStr × JVal)) (r : PResult)
    (h : jsonFinish kvs = .ok r) :
    r = pfail ∨ (r.q ≠ none ∧ r.opts ≠ none ∧ r.idx ≠ none) := by
  unfold jsonFinish at h
  split at h
  · split at h
    · dsimp only at h
      split at h
      · left
        exact ((Except.ok.injEq _ _).mp h).symm
      · split at h
        · right
          rw [← (Except.ok.injEq _ _).mp h]
          simp
        · exact absurd h (by simp)
    · exact absurd h (by simp)
  · exact absurd h (by simp)

theorem json_shape (t : PyStr) :
    parse_json_mcq t = pfail ∨
    ((parse_json_mcq t).q ≠ none ∧ (parse_json_mcq t).opts ≠ none ∧
     (parse_json_mcq t).idx ≠ none) := by
  unfold parse_json_mcq
  cases hb : jsonBody t with
  | error e => left; rfl
  | ok r =>
    unfold jsonBody at hb
    cases hl : jsonLoads t with
    | error e => rw [hl] at hb; simp at hb
    | ok v =>
      rw [hl] at hb
      cases v with
      | jobj kvs =>
        rcases jsonFinish_shape kvs r hb with hp | hs
        · left; rw [hp]
        · right; exact hs
      | jnull => simp at hb
      | jbool b => simp at hb
      | jnum n => simp at hb
      | jstr s => simp at hb
      | jarr xs => simp at hb

theorem inline_shape (t : PyStr) :
    parse_inline_options_mcq t = pfail ∨
    ((parse_inline_options_mcq t).q ≠ none ∧ (parse_inline_options_mcq t).opts ≠ none ∧
     (parse_inline_options_mcq t).idx ≠ none) := by
  unfold parse_inline_options_mcq
  dsimp only
  split
  · split
    · left; rfl
    · split
      · right; simp
      · left; rfl
  · left; rfl

/-- Claim C10: whenever parsing fails, the result is the complete
4-tuple (None, None, None, None): if any of question, options or
correct index is missing from a 'parse_mcq' result, all four fields are
None. -/
theorem parse_mcq_failure_all_none (t : PyStr)
    (h : (parse_mcq t).q = none ∨ (parse_mcq t).opts = none ∨ (parse_mcq t).idx = none) :
    parse_mcq t = pfail := by
  have hcontra : ∀ r : PResult, r.q ≠ none ∧ r.opts ≠ none ∧ r.idx ≠ none →
      (r.q = none ∨ r.opts = none ∨ r.idx = none) → r = pfail := by
    rintro r ⟨h1, h2, h3⟩ (h' | h' | h')
    · exact absurd h' h1
    · exact absurd h' h2
    · exact absurd h' h3
  cases hcl : classify t with
  | gjson =>
    have hred : parse_mcq t = parse_json_mcq (pyStrip t) := by
      unfold parse_mcq; rw [hcl]
    rw [hred] at h ⊢
    rcases json_shape (pyStrip t) with hp | hs
    · exact hp
    · exact hcontra _ hs h
  | gsingle =>
    have hred : parse_mcq t = parse_single_line_mcq (pyStrip t) := by
      unfold parse_mcq; rw [hcl]
    rw [hred] at h ⊢
    rcases single_shape (pyStrip t) with hp | hs
    · exact hp
    · exact hcontra _ hs h
  | gnumbered =>
    have hred : parse_mcq t = parse_numbered_options_mcq (pyStrip t) := by
      unfold parse_mcq; rw [hcl]
    rw [hred] at h ⊢
    rcases n_shape (pyStrip t) with hp | hs
    · exact hp
    · exact hcontra _ hs h
  | ginline =>
    have hred : parse_mcq t = parse_inline_options_mcq (pyStrip t) := by
      unfold parse_mcq; rw [hcl]
    rw [hred] at h ⊢
    rcases inline_shape (pyStrip t) with hp | hs
    · exact hp
    · exact hcontra _ hs h
  | gmulti =>
    have hred : parse_mcq t = parse_multi_line_mcq (pyStrip t) := by
      unfold parse_mcq; rw [hcl]
    rw [hred] at h ⊢
    rcases ml_shape (pyStrip t) with hp | hs
    · exact hp
    · exact hcontra _ hs h

/-- Claim C7: the top-level parse always returns a 4-tuple value;
exceptions raised inside the grammar bodies (modelled as Except.error,
including malformed structured/JSON input and colon-less delimited
fields) never propagate: the enclosing handlers turn them into the
failure tuple returned as data. -/
theorem parse_mcq_total_no_raise (t : PyStr) :
    (∃ r : PResult, parse_mcq t = r)
  ∧ (∀ e, jsonBody t = .error e → parse_json_mcq t = pfail)
  ∧ (∀ e, singleBody t = .error e → parse_single_line_mcq t = pfail) := by
  refine ⟨⟨parse_mcq t, rfl⟩, ?_, ?_⟩
  · intro e he
    unfold parse_json_mcq
    rw [he]
  · intro e he
    unfold parse_single_line_mcq
    rw [he]

/-- Claim C8: parsing is deterministic: the embedding of 'parse_mcq' is
a pure function of the submission text alone, so two invocations on
equal inputs return equal results. -/
theorem parse_mcq_deterministic (t1 t2 : PyStr) (h : t1 = t2) :
    parse_mcq t1 = parse_mcq t2 := by
  rw [h]

/-- Claim C6: the stem length gate of 'handle_message' accepts at
exactly 300 characters and rejects 301, identifying the stem: the bound
is inclusive at 300. -/
theorem lengthGate_stem_bound (q : PyStr) (opts : List PyStr) (ex : Option PyStr) :
    (300 < q.length → lengthGate q opts ex = .stemTooLong)
  ∧ (q.length ≤ 300 → (∀ o ∈ opts, o.length ≤ 100) →
      (∀ e, ex = some e → e.length ≤ 200) → lengthGate q opts ex = .accept) := by
  constructor
  · intro h
    unfold lengthGate
    rw [if_pos (by omega)]
  · intro h1 h2 h3
    unfold lengthGate
    rw [if_neg (by omega)]
    rw [if_neg (by
      simp only [List.any_eq_true, not_exists, not_and]
      intro o ho
      have := h2 o ho
      simp
      omega)]
    rw [if_neg (by
      cases ex with
      | none => simp
      | some e =>
        have := h3 e rfl
        simp
        omega)]

/-- Claim C5 (amended): among texts not classified as structured or
delimited single-line, the classifier selects the numbered-options
grammar iff the stripped text contains a digit immediately followed by
a period anywhere, not only as a line-initial option marker. -/
theorem classify_numbered_iff_digitdot (t : PyStr)
    (hj : jsonShaped (pyStrip t) = false)
    (hs : singleShaped (pyStrip t) = false) :
    classify t = .gnumbered ↔ hasDigitDot (pyStrip t) = true := by
  unfold classify
  by_cases hdd : hasDigitDot (pyStrip t)
  · simp [hj, hs, hdd]
  · simp only [hj, hs, hdd, Bool.false_eq_true, if_false]
    constructor
    · intro hcl
      by_cases ho : occursIn (chars "Options:") (pyStrip t)
      · rw [if_pos ho] at hcl
        exact absurd hcl (by simp)
      · rw [if_neg (by simpa using ho)] at hcl
        exact absurd hcl (by simp)
    · intro hcl
      exact absurd hcl (by simp [hdd])

/-! ### Counterexamples and witnesses -/

/-- Counterexample to claim C1 as stated: the numbered-options grammar
parses `Answer: 5` with only two options to index 4, which is not below
the option count. -/
theorem numbered_index_out_of_range :
    parse_mcq cexNumbered =
      ⟨some (.jstr (chars "q")), some [.jstr (chars "one"), .jstr (chars "two")],
       some 4, some (.jstr [])⟩ ∧
    ¬((4 : Int) < (([JVal.jstr (chars "one"), JVal.jstr (chars "two")]).length : Int)) := by
  constructor
  · rfl
  · decide

/-- Counterexample to claim C2 as stated: a well-formed block with five
options labeled a..e and `Correct Answer: e` is rejected outright,
because the implementation only recognizes letters a..d. -/
theorem letter_e_block_rejected : parse_mcq cexLetterE = pfail := by rfl

/-- Counterexample to claim C3 as stated: a submission holding two valid
multi-line questions yields one merged result (stem of the second
question, all four options, index from the last answer line), not two
questions. -/
theorem two_questions_one_merged_result :
    parse_mcq cexTwoQ =
      ⟨some (.jstr (chars "two?")),
       some [.jstr (chars "r"), .jstr (chars "s"), .jstr (chars "t"), .jstr (chars "u")],
       some 1, some (.jstr [])⟩ := by rfl

/-- Counterexample to claim C4 as stated: a block with eleven recognized
options is accepted, not rejected with TooManyOptions. -/
theorem eleven_options_accepted :
    parse_mcq cexEleven =
      ⟨some (.jstr (chars "q")), some (List.replicate 11 (.jstr (chars "o"))),
       some 0, some (.jstr [])⟩ ∧
    10 < (List.replicate 11 (JVal.jstr (chars "o"))).length := by
  constructor
  · rfl
  · decide

/-- Counterexample to claim C5 as stated: a labeled multi-line question
whose stem merely contains `3.14` is classified as numbered-options even
though no line matches the numbered option marker, and parsing then
fails. -/
theorem classify_numbered_without_marker :
    classify cexPi = .gnumbered ∧
    ((strippedLines (pyStrip cexPi)).all (fun l => (matchNumOpt l).isNone)) = true ∧
    parse_mcq cexPi = pfail := by
  refine ⟨rfl, rfl, rfl⟩

theorem parse_mcq_on_block_witness :
    parse_mcq (assembleML (chars "Capital") [chars "Paris", chars "Rome"] 97) =
      ⟨some (.jstr (chars "Capital")),
       some [JVal.jstr (chars "Paris"), .jstr (chars "Rome")],
       some ((97 : Int) - 97), some (.jstr [])⟩ :=
  parse_mcq_on_block (chars "Capital") [chars "Paris", chars "Rome"] 97
    (by decide) (by decide) (by decide) (by decide) (by decide) (by decide)
    (by decide) (by decide) (by decide) (by decide) (by decide)

theorem parse_mcq_on_two_blocks_witness :
    parse_mcq (assembleML2 (chars "one") [chars "r", chars "s"] 97
                           (chars "two") [chars "t", chars "u"] 98) =
      ⟨some (.jstr (chars "two")),
       some (([chars "r", chars "s"] ++ [chars "t", chars "u"]).map JVal.jstr),
       some ((98 : Int) - 97), some (.jstr [])⟩ :=
  parse_mcq_on_two_blocks (chars "one") [chars "r", chars "s"] 97
    (chars "two") [chars "t", chars "u"] 98
    (by decide) (by decide) (by decide) (by decide) (by decide) (by decide)
    (by decide) (by decide) (by decide) (by decide) (by decide) (by decide)
    (by decide) (by decide) (by decide) (by decide)
    (by decide) (by decide) (by decide)

theorem parse_index_in_range_witness :
    ((0 : Int) ≤ 0 ∧ (0 : Int) <
      (([JVal.jstr (chars "X"), JVal.jstr (chars "Y")]).length : Int)) ∧
    ((0 : Int) ≤ 1 ∧ (1 : Int) <
      (([JVal.jstr (chars "A"), JVal.jstr (chars "B")]).length : Int)) := by
  constructor
  · exact (parse_index_in_range_ml_inline cexOutOfOrder (.jstr (chars "q"))
      [.jstr (chars "X"), .jstr (chars "Y")] 0 (some (.jstr []))).1 (by rfl)
  · exact (parse_index_in_range_ml_inline (chars "Question: w\nOptions: A, B\nAnswer: B")
      (.jstr (chars "w")) [.jstr (chars "A"), .jstr (chars "B")] 1 (some (.jstr []))).2 (by rfl)

theorem ml_min_two_options_witness :
    2 ≤ ([JVal.jstr (chars "X"), JVal.jstr (chars "Y")]).length :=
  ml_min_two_options cexOutOfOrder [JVal.jstr (chars "X"), JVal.jstr (chars "Y")] (by rfl)

theorem classify_numbered_witness : classify (chars "a 1. b") = .gnumbered :=
  (classify_numbered_iff_digitdot (chars "a 1. b") (by rfl) (by rfl)).mpr (by rfl)

theorem lengthGate_witness :
    lengthGate (List.replicate 301 120) [] none = .stemTooLong ∧
    lengthGate (List.replicate 300 120) [] none = .accept := by
  constructor
  · exact (lengthGate_stem_bound (List.replicate 301 120) [] none).1 (by simp)
  · exact (lengthGate_stem_bound (List.replicate 300 120) [] none).2 (by simp)
      (by simp) (by simp)

theorem parse_total_witness :
    parse_json_mcq cexBadJson = pfail ∧ parse_single_line_mcq cexBadSingle = pfail := by
  constructor
  · exact (parse_mcq_total_no_raise cexBadJson).2.1 .exn (by rfl)
  · exact (parse_mcq_total_no_raise cexBadSingle).2.2 .exn (by rfl)

theorem parse_mcq_deterministic_witness :
    parse_mcq (chars "x") = parse_mcq (chars "x") :=
  parse_mcq_deterministic (chars "x") (chars "x") rfl

theorem ml_physical_order_witness :
    [JVal.jstr (chars "X"), JVal.jstr (chars "Y")]
      = (mlOptionTexts cexOutOfOrder).map JVal.jstr ∧
    ∃ c, (caLetters cexOutOfOrder).getLast? = some c ∧ (0 : Int) = (c : Int) - 97 :=
  ml_options_physical_order cexOutOfOrder (.jstr (chars "q"))
    [.jstr (chars "X"), .jstr (chars "Y")] 0 (.jstr []) (by rfl)

theorem parse_mcq_failure_all_none_witness : parse_mcq (chars "") = pfail :=
  parse_mcq_failure_all_none (chars "") (Or.inl (by rfl))
